import Mathlib

/-!
Verification of the diff-match-patch C++ port (guntersp/diff-match-patch-cpp).

This file contains a shallow embedding of the library's diff, match and patch
algorithms, translated from the C++ sources, together with theorems settling
the specification claims.

Modelling conventions, chosen to match the library instantiated at a 32-bit
character type (`utf32_direct` traits, as for `char32_t`/Linux `wchar_t`):

* A character is a natural number and a string (`string_view_t` by value) is a
  `List Nat`.  The string pool only affects allocation, never values, so pool
  appends become list appends.
* `npos` results of `find`/`rfind` are modelled as `Option Nat`; call sites
  that do arithmetic on `npos` are translated branch by branch.
* `float`/`double` quantities (match scores, thresholds, the `/ 2.0`
  comparisons) are modelled as exact rationals.
* Loops of the source without a structural termination argument take an
  explicit fuel argument and return `Option`; `none` means the fuel was
  exhausted.  Every terminating execution of the C++ code is reproduced by
  every sufficiently large fuel, and some of the loops genuinely do not
  terminate on some inputs, which is visible as `none` for every fuel.
* The wall-clock deadline used by `diff_bisect` is modelled by an oracle
  `Nat → Bool` consumed at a threaded counter: the k-th `hitDeadline()` call
  of an execution reads the oracle at k.  Quantifying over all oracles covers
  every possible timing.
-/

namespace DMP

/-- Characters of the embedded strings: a 32-bit code unit, as a natural. -/
abbrev Chr := Nat

/-- Strings (`string_view_t` values). -/
abbrev Str := List Chr

/-- Conversion from Lean string literals to embedded strings, for concrete
test inputs. -/
def str (s : String) : Str := s.data.map Char.toNat

/-- The `Operation` enum of `dmp_diff.h`. -/
inductive Operation : Type where
  | DELETE : Operation
  | INSERT : Operation
  | EQUAL : Operation
deriving DecidableEq, Repr

/-- The `diff` record of `dmp_diff.h`: an operation together with its text. -/
structure Diff : Type where
  operation : Operation
  text : Str
deriving DecidableEq, Repr

/-- Default-constructed `diff` (operation INSERT, empty text), used for
out-of-range reads that cannot happen in the C++ code. -/
def dDiff : Diff := ⟨Operation.INSERT, []⟩

/-- The `patch` record of `dmp_patch.h`. -/
structure Patch : Type where
  diffs : List Diff
  start1 : Nat
  start2 : Nat
  length1 : Nat
  length2 : Nat
deriving DecidableEq, Repr

/-- Default-constructed `patch`. -/
def dPatch : Patch := ⟨[], 0, 0, 0, 0⟩

/-- The `settings` record of `dmp_settings.h`.  Floating-point fields are
modelled as rationals, the integral fields as integers. -/
structure Settings : Type where
  Diff_Timeout : ℚ := 1
  Diff_EditCost : ℤ := 4
  Match_Threshold : ℚ := 1/2
  Match_Distance : ℤ := 1000
  Patch_DeleteThreshold : ℚ := 1/2
  Patch_Margin : ℤ := 4
  Match_MaxBits : ℤ := 32
deriving DecidableEq, Repr

/-- The default settings. -/
def defaultSettings : Settings := {}

/-- `string_view_t::substring(pos)` (`get_substring`, clamping). -/
def substrFrom (s : Str) (pos : Nat) : Str := s.drop pos

/-- `string_view_t::substring(pos, len)` (`get_substring`, clamping). -/
def substr (s : Str) (pos len : Nat) : Str := (s.drop pos).take len

/-- One candidate test of `minimal_string_view::find`: does `pat` occur at
position `i` of `s`? -/
def matchesAt (s pat : Str) (i : Nat) : Bool := decide ((s.drop i).take pat.length = pat)

/-- Scan helper for `find`: first match position in `[i, i+cnt)`. -/
def findLoop (s pat : Str) (i cnt : Nat) : Option Nat :=
  match cnt with
  | 0 => none
  | cnt + 1 => if matchesAt s pat i then some i else findLoop s pat (i + 1) cnt

/-- `minimal_string_view::find(needle, start)` (`indexOf`): `none` is `npos`.
An empty haystack, or a needle longer than the haystack, yields `npos`. -/
def strFind (s pat : Str) (start : Nat) : Option Nat :=
  if s.length = 0 ∨ pat.length > s.length then none
  else findLoop s pat start (s.length - pat.length + 1 - min start (s.length - pat.length + 1))

/-- Scan helper for `rfind`: last match position `≤ i`, scanning downwards. -/
def rfindLoop (s pat : Str) (i : Nat) : Option Nat :=
  if matchesAt s pat i then some i
  else match i with
  | 0 => none
  | j + 1 => rfindLoop s pat j

/-- `minimal_string_view::rfind(needle, last)` (`lastIndexOf`): the scan start
is clamped to `len - nl`. -/
def strRFind (s pat : Str) (last : Nat) : Option Nat :=
  if s.length = 0 ∨ pat.length > s.length then none
  else rfindLoop s pat (min last (s.length - pat.length))

/-- `splice_container` on lists: replace `remove` elements at `start` by
`ins`; when `start` is past the end the container is left unchanged
(`splice_base` returns false), and `remove` is clamped. -/
def splice {α : Type} (l : List α) (start remove : Nat) (ins : List α) : List α :=
  if start > l.length then l
  else l.take start ++ ins ++ l.drop (start + remove)

/-- The `diffs_list::push_front` operation. -/
def pushFront {α : Type} (l : List α) (a : α) : List α := a :: l

/-- `diff_commonPrefix` of `dmp_algorithms_common.h`. -/
def diff_commonPrefix : Str → Str → Nat
  | a :: s, b :: t => if a = b then diff_commonPrefix s t + 1 else 0
  | _, _ => 0

/-- `diff_commonSuffix` of `dmp_algorithms_common.h`. -/
def diff_commonSuffix (s t : Str) : Nat := diff_commonPrefix s.reverse t.reverse

/-- `diff_text1` (pool version, with a start index defaulting to 0):
concatenation of the texts of all non-INSERT entries. -/
def diff_text1From (diffs : List Diff) (start : Nat) : Str :=
  ((diffs.drop start).filter (fun d => d.operation ≠ Operation.INSERT)).foldr
    (fun d acc => d.text ++ acc) []

/-- `diff_text1`: source text of a diff script. -/
def diff_text1 (diffs : List Diff) : Str := diff_text1From diffs 0

/-- `diff_text2` (pool version, with a start index defaulting to 0):
concatenation of the texts of all non-DELETE entries. -/
def diff_text2From (diffs : List Diff) (start : Nat) : Str :=
  ((diffs.drop start).filter (fun d => d.operation ≠ Operation.DELETE)).foldr
    (fun d acc => d.text ++ acc) []

/-- `diff_text2`: destination text of a diff script. -/
def diff_text2 (diffs : List Diff) : Str := diff_text2From diffs 0

/-- Loop of `diff_levenshtein`. -/
def levLoop : List Diff → Nat → Nat → Nat
  | [], ins, del => max ins del
  | d :: rest, ins, del =>
    match d.operation with
    | Operation.INSERT => levLoop rest (ins + d.text.length) del
    | Operation.DELETE => levLoop rest ins (del + d.text.length)
    | Operation.EQUAL => max ins del + levLoop rest 0 0

/-- `diff_levenshtein` of `dmp_algorithms_common.h`. -/
def diff_levenshtein (diffs : List Diff) : Nat := levLoop diffs 0 0

/-! ### Match subsystem (`dmp_algorithms_match.h`) -/

/-- Reinterpret a natural as a 32-bit signed `int` (two's complement), as the
`static_cast<int>` conversions of the source do. -/
def toInt32 (n : Nat) : ℤ :=
  let m : Nat := n % 2 ^ 32
  if m < 2 ^ 31 then (m : ℤ) else (m : ℤ) - 2 ^ 32

/-- Reinterpret an integer as a `size_t` (conversion modulo `2^64`). -/
def toSizeT (z : ℤ) : Nat := (z % 2 ^ 64).toNat

/-- Truncation of `size_t` arithmetic. -/
def w64 (n : Nat) : Nat := n % 2 ^ 64

/-- Loop of `match_alphabet`: `s[c] |= 1 << (l - i - 1)` over the pattern,
on a map whose absent keys read as 0. -/
def alphaLoop (l : Nat) : List Chr → Nat → (Chr → Nat) → (Chr → Nat)
  | [], _, m => m
  | c :: rest, i, m =>
      alphaLoop l rest (i + 1) (fun x => if x = c then m x ||| 2 ^ (l - i - 1) else m x)

/-- `match_alphabet`: bitmask per character of the pattern. -/
def match_alphabet (pattern : Str) : Chr → Nat :=
  alphaLoop pattern.length pattern 0 (fun _ => 0)

/-- `match_bitapScore`: score for a match with `e` errors at location `x`,
expected at `loc`.  The float arithmetic of the source is modelled exactly
over the rationals. -/
def match_bitapScore (st : Settings) (e x loc : Nat) (pattern : Str) : ℚ :=
  let accuracy : ℚ := (e : ℚ) / (pattern.length : ℚ)
  let proximity : Nat := if x ≤ loc then loc - x else x - loc
  if st.Match_Distance = 0 then
    (if proximity = 0 then accuracy else 1)
  else accuracy + (proximity : ℚ) / (st.Match_Distance : ℚ)

/-- Binary-search loop of `match_bitap` (fueled; the source loop always
terminates, but the measure is not structural).  Returns `bin_mid` at exit
(the source then overwrites `bin_max` with it). -/
def bitapBinLoop (st : Settings) (d loc : Nat) (pattern : Str) (thr : ℚ) :
    Nat → ℤ → ℤ → ℤ → Option ℤ
  | 0, _, _, _ => none
  | fuel + 1, binMin, binMid, binMax =>
    if binMin < binMid then
      let (binMin', binMax') :=
        if match_bitapScore st d (toSizeT ((loc : ℤ) + binMid)) loc pattern ≤ thr then
          (binMid, binMax)
        else (binMin, binMid)
      bitapBinLoop st d loc pattern thr fuel binMin' (Int.tdiv (binMax' - binMin') 2 + binMin') binMax'
    else some binMid

/-- State shared between iterations of the bitap `j` loop. -/
structure BitapJState where
  rd : List Nat
  thr : ℚ
  best : Option Nat
  start : Nat
deriving Repr

/-- Inner `j` loop of `match_bitap`, scanning from `finish` down to `start`
(which the body may move); the early `break` of the source is encoded by
returning without recursing. -/
def bitapJLoop (st : Settings) (alpha : Chr → Nat) (matchmask : Nat) (d loc : Nat)
    (pattern text : Str) (lastRd : List Nat) : Nat → BitapJState → BitapJState
  | 0, s => s
  | j + 1, s =>
    if j + 1 < s.start then s
    else
      let jj := j + 1
      let charMatch : Nat :=
        if text.length ≤ jj - 1 then 0
        else toSizeT (toInt32 (alpha (text.getD (jj - 1) 0)))
      let rdj : Nat :=
        if d = 0 then
          (w64 (s.rd.getD (jj + 1) 0 <<< 1) ||| 1) &&& charMatch
        else
          ((w64 (s.rd.getD (jj + 1) 0 <<< 1) ||| 1) &&& charMatch) |||
            (w64 ((lastRd.getD (jj + 1) 0 ||| lastRd.getD jj 0) <<< 1) ||| 1) |||
            lastRd.getD (jj + 1) 0
      let rd' := s.rd.set jj rdj
      if rdj &&& matchmask ≠ 0 then
        let score := match_bitapScore st d (jj - 1) loc pattern
        if score ≤ s.thr then
          let best' := jj - 1
          if best' > loc then
            let start' := toSizeT (max 1 (2 * (loc : ℤ) - (best' : ℤ)))
            bitapJLoop st alpha matchmask d loc pattern text lastRd j
              ⟨rd', score, some best', start'⟩
          else ⟨rd', score, some best', s.start⟩
        else bitapJLoop st alpha matchmask d loc pattern text lastRd j ⟨rd', s.thr, s.best, s.start⟩
      else bitapJLoop st alpha matchmask d loc pattern text lastRd j ⟨rd', s.thr, s.best, s.start⟩

/-- Outer error-level loop of `match_bitap`. -/
def bitapDLoop (st : Settings) (alpha : Chr → Nat) (matchmask : Nat) (loc : Nat)
    (pattern text : Str) (fuel : Nat) :
    Nat → Nat → ℚ → Option Nat → ℤ → List Nat → Option (Option Nat)
  | 0, _, _, best, _, _ => some best
  | dRemaining + 1, d, thr, best, binMax, lastRd => do
    let binMid ← bitapBinLoop st d loc pattern thr fuel 0 binMax binMax
    let binMax2 := binMid
    let start := toSizeT (max 1 ((loc : ℤ) - binMid + 1))
    let finish := toSizeT (min ((loc : ℤ) + binMid) (text.length : ℤ) + (pattern.length : ℤ))
    let rd0 := (List.replicate (finish + 2) 0).set (finish + 1) (w64 (2 ^ d - 1))
    let s := bitapJLoop st alpha matchmask d loc pattern text lastRd finish ⟨rd0, thr, best, start⟩
    if match_bitapScore st (d + 1) loc loc pattern > s.thr then
      some s.best
    else
      bitapDLoop st alpha matchmask loc pattern text fuel dRemaining (d + 1) s.thr s.best binMax2 s.rd

/-- `match_bitap`: fuzzy bitap search.  The outer `none` means fuel ran out
in the binary search; the inner `Option Nat` is the found location or
`npos`. -/
def match_bitap (fuel : Nat) (st : Settings) (text pattern : Str) (loc : Nat) :
    Option (Option Nat) :=
  let alpha := match_alphabet pattern
  let pl := pattern.length
  let tl := text.length
  let thr0 : ℚ := st.Match_Threshold
  let thr1 : ℚ :=
    match strFind text pattern loc with
    | none => thr0
    | some bl =>
      let t := min (match_bitapScore st 0 bl loc pattern) thr0
      match strRFind text pattern (min (loc + pl) tl) with
      | none => t
      | some bl2 => min (match_bitapScore st 0 bl2 loc pattern) t
  let matchmask := toSizeT (toInt32 (2 ^ (pl - 1)))
  bitapDLoop st alpha matchmask loc pattern text fuel pl 0 thr1 none ((pl : ℤ) + (tl : ℤ)) []

/-- `match_main` of `dmp_algorithms_match.h`.  The outer `Option` is fuel
exhaustion inside bitap; the inner `Option Nat` is the result (`none` =
`npos`/NotFound). -/
def match_main (fuel : Nat) (st : Settings) (text pattern : Str) (loc : Nat) :
    Option (Option Nat) :=
  let loc := max 0 (min loc text.length)
  if text = pattern then some (some 0)
  else if text.length = 0 then some none
  else if loc + pattern.length ≤ text.length ∧ substr text loc pattern.length = pattern then
    some (some loc)
  else match_bitap fuel st text pattern loc

/-! ### Character helpers and the delta codec (`dmp_encoding.h`, `dmp_utils.h`) -/

/-- The `encodeURI` safe set (`internal::safe_chars`). The safe table maps a
character below 0x100 to its own index, so writing
`safe_chars[safe[*p] - 1]` writes the character itself. -/
def safeList : Str :=
  str "0123456789ABCDEFGHIJKLMNOPQRSTUVWXYZabcdefghijklmnopqrstuvwxyz-_.~ !*'();/?:@&=+$,#"

/-- Lowercase hex digits (`hex_output_chars`, the lowercased prefix of the
safe set). -/
def hexLower : Str := str "0123456789abcdef"

/-- UTF-8 encoding of one code point (`utf32_from_utf8::from_utf32`); every
produced unit goes through a `static_cast<unsigned char>`. -/
def utf8Bytes (u : Nat) : List Nat :=
  (if u < 0x80 then [u]
   else if u < 0x800 then [(u >>> 6) ||| 0xC0, (u &&& 0x3F) ||| 0x80]
   else if u < 0x10000 then
     [(u >>> 12) ||| 0xE0, ((u >>> 6) &&& 0x3F) ||| 0x80, (u &&& 0x3F) ||| 0x80]
   else
     [(u >>> 18) ||| 0xF0, ((u >>> 12) &&& 0x3F) ||| 0x80, ((u >>> 6) &&& 0x3F) ||| 0x80,
       (u &&& 0x3F) ||| 0x80]).map (· % 256)

/-- Escaping of one UTF-8 byte in `encodeURI`: safe bytes unchanged, others
as a lowercase-hex percent escape. -/
def encodeURIbyte (b : Nat) : Str :=
  if b ∈ safeList then [b]
  else [37, hexLower.getD ((b &&& 0xF0) >>> 4) 0, hexLower.getD (b &&& 0xF) 0]

/-- `encodeURI` of `dmp_encoding.h` for the `utf32_direct` traits (the
`to_utf32` step masks with the character maximum, here `2^32 - 1`).  When no
character needs escaping the input is emitted untouched; otherwise every
character is re-encoded via UTF-8 bytes. -/
def encodeURI (s : Str) : Str :=
  let needsEscaping :=
    s.any (fun c => decide (0x80 ≤ c % 2 ^ 32) || !(decide ((c % 2 ^ 32) % 256 ∈ safeList)))
  if needsEscaping then s.flatMap (fun c => (utf8Bytes (c % 2 ^ 32)).flatMap encodeURIbyte)
  else s

/-- `internal::hex_digit_value`: both hex cases accepted. -/
def hexVal (c : Chr) : Option Nat :=
  if 48 ≤ c ∧ c ≤ 57 then some (c - 48)
  else if 65 ≤ c ∧ c ≤ 70 then some (c - 65 + 10)
  else if 97 ≤ c ∧ c ≤ 102 then some (c - 97 + 10)
  else none

/-- First phase of `utils::percent_decode`: replace `%HH` escapes by the
byte value, fail on a bad escape.  A `%` with fewer than two following
characters makes the source read past the buffer (undefined behaviour); it is
modelled as a failure. -/
def pctPhase1 : Str → Option Str
  | [] => some []
  | c :: rest =>
    if c = 37 then
      match rest with
      | d1 :: d2 :: rest2 => do
        let h1 ← hexVal d1
        let h2 ← hexVal d2
        let t ← pctPhase1 rest2
        pure (((h1 <<< 4) + h2) :: t)
      | _ => none
    else (pctPhase1 rest).map (c :: ·)

/-- One `utf32_from_utf8::to_utf32` call over the character list: returns the
decoded (or garbage, for malformed input) value and the remaining input.  As
in the source, a successful multi-byte decode does not advance past its first
continuation byte, and the value of `u` from the previous call leaks through
when the scan falls off the end. -/
def utf8ToUtf32 (u0 : Nat) : List Nat → Nat × List Nat
  | [] => (u0, [])
  | b :: rest =>
    let u := b % 2 ^ 32
    if u < 0x80 then (u, rest)
    else if u >>> 5 = 6 then
      match rest with
      | [] => (u, [])
      | b2 :: _ =>
        if b2 &&& 0xC0 ≠ 0x80 then utf8ToUtf32 u rest
        else (((u &&& 0x1F) <<< 6) + (b2 &&& 0x3F), rest)
    else if u >>> 4 = 0xE then
      match rest with
      | [] => (u, [])
      | b2 :: _ =>
        if b2 &&& 0xC0 ≠ 0x80 then utf8ToUtf32 u rest
        else (((u &&& 0xF) <<< 12) + ((b2 &&& 0x3F) <<< 6) + (b2 &&& 0x3F), rest)
    else if u >>> 3 = 0x1E then
      match rest with
      | [] => (u, [])
      | b2 :: _ =>
        if b2 &&& 0xC0 ≠ 0x80 then utf8ToUtf32 u rest
        else
          (((u &&& 0x7) <<< 18) + ((b2 &&& 0x3F) <<< 12) + ((b2 &&& 0x3F) <<< 6) +
            (b2 &&& 0x3F), rest)
    else utf8ToUtf32 u rest

/-- The in-place UTF-8 normalisation loop of `utils::percent_decode`
(`while (s3 != s2) { s3 = to_utf32(...); s4 = from_utf32(u, s4); }` with
`utf32_direct::from_utf32` writing the value as one character).  The fuel is
the list length; each `to_utf32` call consumes at least one element, so it
always suffices. -/
def utf8NormLoop : Nat → List Nat → List Nat
  | _, [] => []
  | 0, _ :: _ => []
  | fuel + 1, b :: l =>
    let (u, rest) := utf8ToUtf32 0 (b :: l)
    u :: utf8NormLoop fuel rest

/-- UTF-8 normalisation pass of `utils::percent_decode`. -/
def utf8Normalize (l : List Nat) : List Nat := utf8NormLoop l.length l

/-- The `+` → `%2b` rewriting pass of `string_pool_base::percent_decode`
with `replacePluses = true`. -/
def plusRepl (s : Str) : Str := s.flatMap (fun c => if c = 43 then [37, 50, 98] else [c])

/-- `string_pool_base::percent_decode` with `replacePluses = true` (the only
way the library calls it): if nothing would change, the input is returned
as-is; otherwise `+` is first rewritten to `%2b` and the raw
`utils::percent_decode` (escape substitution, then UTF-8 normalisation) runs
over the copy. -/
def percentDecodePlus (s : Str) : Option Str :=
  let willChange := s.any (fun c => c == 43 || c == 37 || !(decide (c < 0x80)))
  if !willChange then some s
  else do
    let t ← pctPhase1 (plusRepl s)
    some (utf8Normalize t)

/-- Proof helper: the shape one input character takes after `encodeURI`
escaping followed by the `+` → `%2b` substitution of `percent_decode`. -/
def unitAfterPlus (c : Chr) : Str :=
  if c = 43 then [37, 50, 98] else encodeURIbyte c

/-- Decimal digit emission, little helper matching the stream `operator<<`
and `utils::toString` output for a natural number. -/
def natDecAux : Nat → Nat → List Nat
  | 0, _ => []
  | fuel + 1, n => if n < 10 then [48 + n] else natDecAux fuel (n / 10) ++ [48 + n % 10]

/-- Decimal representation (ASCII codes) of a natural number. -/
def natDec (n : Nat) : Str := natDecAux (n + 1) n

/-- Core digit loop of `internal::toIntegerInt2` for `int_t = int`
(32-bit signed).  `v = c - '0'` is computed in `uint8_t` (wrapping), so some
wide characters alias digits; signed overflow of `res` wraps modulo `2^32`
(two's complement) and is then detected with the `(res - v) / 10 != old`
test, truncating division.  Returns `none` for the null-pointer outcomes and
`some rest` (the unconsumed suffix) otherwise, with the accumulated value. -/
def toIntegerInt2 (absMax : ℤ) : Str → ℤ → Option (ℤ × Str)
  | [], res => some (res, [])
  | c :: rest, res =>
    let v : Nat := (((c : ℤ) - 48) % 256).toNat
    if v > 9 then some (res, c :: rest)
    else
      let saveMax := Int.tdiv (absMax - 9) 10
      if res ≤ saveMax then toIntegerInt2 absMax rest (res * 10 + v)
      else
        let old := res
        let res' := toInt32 ((res * 10 + v) % 2 ^ 64).toNat
        if Int.tdiv (res' - v) 10 ≠ old then none
        else toIntegerInt2 absMax rest res'

/-- `internal::toIntegerInt` for signed 32-bit `int`: optional sign handling
around the digit loop.  The digit loop only succeeds with a non-negative
exact value, so the negation overflow test of the source
(`(res * -1) != old` after `res = -old`) never fires and negation is
unconditional. -/
def toIntegerIntSigned : Str → Option (ℤ × Str)
  | [] => none
  | c :: rest =>
    let absMax : ℤ := 2147483647
    if c = 45 then
      match rest with
      | [] => none
      | _ => do
        let (res, left) ← toIntegerInt2 absMax rest 0
        pure (-res, left)
    else
      let body := if c = 43 then rest else c :: rest
      match body with
      | [] => none
      | _ => toIntegerInt2 absMax body 0

/-- `utils::parseInt` into a signed 32-bit `int`: the whole string must be
consumed. -/
def parseIntI (s : Str) : Option ℤ :=
  match toIntegerIntSigned s with
  | none => none
  | some (res, left) => if left = [] then some res else none

/-- Core digit loop instantiated at `size_t` for `parseInt` into `size_t`
fields (`patch_fromText`); unsigned, so `-` fails and overflow wraps modulo
`2^64`. -/
def toIntegerInt2U : Str → Nat → Option (Nat × Str)
  | [], res => some (res, [])
  | c :: rest, res =>
    let v : Nat := (((c : ℤ) - 48) % 256).toNat
    if v > 9 then some (res, c :: rest)
    else
      let saveMax : Nat := (2 ^ 64 - 1 - 9) / 10
      if res ≤ saveMax then toIntegerInt2U rest (res * 10 + v)
      else
        let old := res
        let res' := (res * 10 + v) % 2 ^ 64
        if (res' - v) / 10 ≠ old then none
        else toIntegerInt2U rest res'

/-- `utils::parseInt` into `size_t`: `-` is rejected, `+` skipped. -/
def parseIntU (s : Str) : Option Nat :=
  match s with
  | [] => none
  | c :: rest =>
    if c = 45 then none
    else
      let body := if c = 43 then rest else c :: rest
      match body with
      | [] => none
      | _ =>
        match toIntegerInt2U body 0 with
        | none => none
        | some (res, left) => if left = [] then some res else none

/-- Character `find` of `minimal_string_view` (the overload used by
`nextLine` and the line splitter): first index in `[start, len)` holding the
character. -/
def charFind (s : Str) (c : Chr) (start : Nat) : Option Nat :=
  findLoop s [c] start (s.length - start)

/-- `diff_match_patch_common::nextLine`: returns the next separator-delimited
line and the new cursor, or `none` at the end. -/
def nextLine (text : Str) (len : Nat) (sep : Chr) (start : Nat) : Option (Str × Nat) :=
  if start ≥ len then none
  else
    let p := (charFind text sep start).getD len
    some (substr text start (p - start), p + 1)

/-- Repeated `nextLine` splitting, as `diff_fromDelta` and `patch_fromText`
consume their input.  The structural fuel `text.length + 1` always suffices
because the cursor advances by at least one per line. -/
def splitSepLoop (text : Str) (sep : Chr) : Nat → Nat → List Str
  | 0, _ => []
  | fuel + 1, start =>
    match nextLine text text.length sep start with
    | none => []
    | some (line, start') => line :: splitSepLoop text sep fuel start'

/-- Split a string at a separator the way iterated `nextLine` does. -/
def splitSep (text : Str) (sep : Chr) : List Str :=
  splitSepLoop text sep (text.length + 1) 0

/-- One token of `diff_toDelta`. -/
def toDeltaToken (d : Diff) : Str :=
  match d.operation with
  | Operation.INSERT => 43 :: encodeURI d.text
  | Operation.DELETE => 45 :: natDec d.text.length
  | Operation.EQUAL => 61 :: natDec d.text.length

/-- `diff_toDelta` of `dmp_algorithms_common.h`: tab-separated tokens. -/
def diff_toDelta (diffs : List Diff) : Str :=
  ((diffs.map toDeltaToken).intersperse [9]).flatten

/-- Token-processing loop of `diff_fromDelta`, with the cursor into `text1`
and the accumulated diff list; `none` is the `InvalidDelta` outcome. -/
def fromDeltaLoop (text1 : Str) : List Str → Nat → List Diff → Option (List Diff)
  | [], pointer, acc => if pointer = text1.length then some acc else none
  | tok :: rest, pointer, acc =>
    if tok.length = 0 then fromDeltaLoop text1 rest pointer acc
    else
      let param := substrFrom tok 1
      let c := tok.getD 0 0
      if c = 43 then
        match percentDecodePlus param with
        | none => none
        | some dec => fromDeltaLoop text1 rest pointer (acc ++ [⟨Operation.INSERT, dec⟩])
      else if c = 45 ∨ c = 61 then
        match parseIntI param with
        | none => none
        | some n =>
          if n < 0 then none
          else if pointer ≥ text1.length then none
          else
            let text := substr text1 pointer n.toNat
            let op := if c = 61 then Operation.EQUAL else Operation.DELETE
            fromDeltaLoop text1 rest (pointer + n.toNat) (acc ++ [⟨op, text⟩])
      else none

/-- `diff_fromDelta` of `dmp_algorithms_diff.h`. -/
def diff_fromDelta (text1 delta : Str) : Option (List Diff) :=
  fromDeltaLoop text1 (splitSep delta 9) 0 []

/-! ### `diff_cleanupMerge` (`dmp_algorithms_diff.h`) -/

/-- `string_wrapper::startsWith` (length guard, then a clamped substring
compare). -/
def startsWith (s t : Str) : Bool :=
  decide (t.length ≤ s.length) && decide (substr s 0 t.length = t)

/-- `string_wrapper::endsWith`. -/
def endsWith (s t : Str) : Bool :=
  decide (t.length ≤ s.length) && decide (substr s (s.length - t.length) t.length = t)

/-- The EQUAL case of the `diff_cleanupMerge` merge loop: given the state at
an equality, returns the updated list and the pointer for the next iteration
(counts and texts are reset by the caller).  The run of DELETE/INSERT entries
counted by `count_delete + count_insert` always immediately precedes
`pointer`, so `pointer ≥ count_delete + count_insert` and the `size_t`
subtractions never wrap; they are modelled by truncated subtraction. -/
def cm1EqStep (diffs : List Diff) (pointer count_delete count_insert : Nat)
    (text_delete text_insert : Str) : List Diff × Nat :=
  if count_delete + count_insert > 1 then
    let st :=
      if count_delete ≠ 0 ∧ count_insert ≠ 0 then
        let cl := diff_commonPrefix text_insert text_delete
        let st1 :=
          if cl ≠ 0 then
            if 0 < pointer - count_delete - count_insert ∧
                (diffs.getD (pointer - count_delete - count_insert - 1) dDiff).operation =
                  Operation.EQUAL then
              (diffs.set (pointer - count_delete - count_insert - 1)
                  ⟨Operation.EQUAL,
                    (diffs.getD (pointer - count_delete - count_insert - 1) dDiff).text ++
                      substr text_insert 0 cl⟩,
                pointer, substrFrom text_delete cl, substrFrom text_insert cl)
            else
              (pushFront diffs ⟨Operation.EQUAL, substr text_insert 0 cl⟩, pointer + 1,
                substrFrom text_delete cl, substrFrom text_insert cl)
          else (diffs, pointer, text_delete, text_insert)
        match st1 with
        | (diffs1, pointer1, td1, ti1) =>
          let cs := diff_commonSuffix ti1 td1
          if cs ≠ 0 then
            (diffs1.set pointer1
                ⟨(diffs1.getD pointer1 dDiff).operation,
                  substrFrom ti1 (ti1.length - cs) ++ (diffs1.getD pointer1 dDiff).text⟩,
              pointer1, substr td1 0 (td1.length - cs), substr ti1 0 (ti1.length - cs))
          else (diffs1, pointer1, td1, ti1)
      else (diffs, pointer, text_delete, text_insert)
    match st with
    | (diffs1, pointer1, td1, ti1) =>
      let pointer2 := pointer1 - (count_delete + count_insert)
      let next :=
        if td1.length ≠ 0 ∧ ti1.length ≠ 0 then
          (splice diffs1 pointer2 (count_delete + count_insert)
            [⟨Operation.DELETE, td1⟩, ⟨Operation.INSERT, ti1⟩], pointer2 + 2)
        else if td1.length ≠ 0 then
          (splice diffs1 pointer2 (count_delete + count_insert) [⟨Operation.DELETE, td1⟩],
            pointer2 + 1)
        else if ti1.length ≠ 0 then
          (splice diffs1 pointer2 (count_delete + count_insert) [⟨Operation.INSERT, ti1⟩],
            pointer2 + 1)
        else (splice diffs1 pointer2 (count_delete + count_insert) [], pointer2)
      (next.1, next.2 + 1)
  else if pointer ≠ 0 ∧ (diffs.getD (pointer - 1) dDiff).operation = Operation.EQUAL then
    (splice
      (diffs.set (pointer - 1)
        ⟨(diffs.getD (pointer - 1) dDiff).operation,
          (diffs.getD (pointer - 1) dDiff).text ++ (diffs.getD pointer dDiff).text⟩)
      pointer 1 [],
     pointer)
  else (diffs, pointer + 1)

/-- First pass of `diff_cleanupMerge`: the merge loop, with state
`(diffs, pointer, count_delete, count_insert, text_delete, text_insert)`. -/
def cm1 : Nat → List Diff → Nat → Nat → Nat → Str → Str → Option (List Diff)
  | 0, _, _, _, _, _, _ => none
  | fuel + 1, diffs, pointer, count_delete, count_insert, text_delete, text_insert =>
    if pointer < diffs.length then
      match (diffs.getD pointer dDiff).operation with
      | Operation.INSERT =>
        cm1 fuel diffs (pointer + 1) count_delete (count_insert + 1) text_delete
          (text_insert ++ (diffs.getD pointer dDiff).text)
      | Operation.DELETE =>
        cm1 fuel diffs (pointer + 1) (count_delete + 1) count_insert
          (text_delete ++ (diffs.getD pointer dDiff).text) text_insert
      | Operation.EQUAL =>
        let s := cm1EqStep diffs pointer count_delete count_insert text_delete text_insert
        cm1 fuel s.1 s.2 0 0 [] []
    else some diffs

/-- Second pass of `diff_cleanupMerge`: shift single edits surrounded by
equalities.  At list size 0 the C++ loop condition `pointer < size - 1`
wraps and the loop reads out of bounds (undefined behaviour); that state is
unreachable from the library's call sites, and the embedding exits the
loop there. -/
def cm2 : Nat → List Diff → Nat → Bool → Option (List Diff × Bool)
  | 0, _, _, _ => none
  | fuel + 1, diffs, pointer, changes =>
    if pointer < diffs.length - 1 then
      if (diffs.getD (pointer - 1) dDiff).operation = Operation.EQUAL ∧
          (diffs.getD (pointer + 1) dDiff).operation = Operation.EQUAL then
        if endsWith (diffs.getD pointer dDiff).text (diffs.getD (pointer - 1) dDiff).text then
          let diffs1 := diffs.set pointer
            ⟨(diffs.getD pointer dDiff).operation,
              (diffs.getD (pointer - 1) dDiff).text ++
                substr (diffs.getD pointer dDiff).text 0
                  ((diffs.getD pointer dDiff).text.length -
                    (diffs.getD (pointer - 1) dDiff).text.length)⟩
          let diffs2 := diffs1.set (pointer + 1)
            ⟨(diffs1.getD (pointer + 1) dDiff).operation,
              (diffs.getD (pointer - 1) dDiff).text ++ (diffs1.getD (pointer + 1) dDiff).text⟩
          cm2 fuel (splice diffs2 (pointer - 1) 1 []) (pointer + 1) true
        else if startsWith (diffs.getD pointer dDiff).text
            (diffs.getD (pointer + 1) dDiff).text then
          let diffs1 := diffs.set (pointer - 1)
            ⟨(diffs.getD (pointer - 1) dDiff).operation,
              (diffs.getD (pointer - 1) dDiff).text ++ (diffs.getD (pointer + 1) dDiff).text⟩
          let diffs2 := diffs1.set pointer
            ⟨(diffs1.getD pointer dDiff).operation,
              substrFrom (diffs1.getD pointer dDiff).text
                  (diffs1.getD (pointer + 1) dDiff).text.length ++
                (diffs1.getD (pointer + 1) dDiff).text⟩
          cm2 fuel (splice diffs2 (pointer + 1) 1 []) (pointer + 1) true
        else cm2 fuel diffs (pointer + 1) changes
      else cm2 fuel diffs (pointer + 1) changes
    else some (diffs, changes)

/-- `diff_cleanupMerge` of `dmp_algorithms_diff.h`: dummy entry, merge pass,
dummy removal, shift pass, and recursion while the shift pass changed
anything. -/
def diff_cleanupMerge : Nat → List Diff → Option (List Diff)
  | 0, _ => none
  | fuel + 1, diffs =>
    if diffs.length = 0 then some diffs
    else
      match cm1 (fuel + 1) (diffs ++ [⟨Operation.EQUAL, []⟩]) 0 0 0 [] [] with
      | none => none
      | some d1 =>
        let d2 := if (d1.getD (d1.length - 1) dDiff).text.length = 0 then d1.dropLast else d1
        match cm2 (fuel + 1) d2 1 false with
        | none => none
        | some (d3, changes) =>
          if changes then diff_cleanupMerge fuel d3 else some d3

/-! ### Patch serialisation (`dmp_patch.h`, `dmp_algorithms_patch.h`) -/

/-- `internal::isDigit`. -/
def isDigit (c : Chr) : Bool := decide (48 ≤ c) && decide (c ≤ 57)

/-- One coordinate block of `patch::toString` (1-based indices; the `+ 1`
is `size_t` arithmetic). -/
def patchCoords (s l : Nat) : Str :=
  if l = 0 then natDec s ++ str ",0"
  else if l = 1 then natDec (w64 (s + 1))
  else natDec (w64 (s + 1)) ++ [44] ++ natDec l

/-- The sign character a diff entry gets in a patch body. -/
def signChar : Operation → Chr
  | Operation.INSERT => 43
  | Operation.DELETE => 45
  | Operation.EQUAL => 32

/-- `patch::toString`: GNU-diff style header plus sign-prefixed,
URI-escaped body lines. -/
def patchToString (p : Patch) : Str :=
  str "@@ -" ++ patchCoords p.start1 p.length1 ++ str " +" ++
    patchCoords p.start2 p.length2 ++ str " @@" ++ [10] ++
    p.diffs.flatMap (fun d => signChar d.operation :: (encodeURI d.text ++ [10]))

/-- `patch_toText`: concatenation of the per-patch renderings. -/
def patch_toText (patches : List Patch) : Str := patches.flatMap patchToString

/-- First digit run of the `patch_fromText` header scanner
(`do { start1++; } while (--l > 0 && isDigit(*++t))`): returns the count,
the final cursor and the remaining budget.  The cursor stays on the last
digit when the budget runs out, and moves one past the digits otherwise. -/
def hdrRun1 (line : Str) : Nat → Nat → Nat → Nat → Nat × Nat × Nat
  | 0, t, l, count => (count, t, l)
  | fuel + 1, t, l, count =>
    let count := count + 1
    let l := l - 1
    if l = 0 then (count, t, l)
    else if isDigit (line.getD (t + 1) 0) then hdrRun1 line fuel (t + 1) l count
    else (count, t + 1, l)

/-- Second digit run (`do { start2++; --l; } while (isDigit(*++t))`).  The
unguarded `--l` can wrap below zero in C++ only on inputs whose final
`l == 0` check fails anyway; the wrap is modelled by truncated subtraction,
with the same accept/reject outcome. -/
def hdrRun2 (line : Str) : Nat → Nat → Nat → Nat → Nat × Nat × Nat
  | 0, t, l, count => (count, t, l)
  | fuel + 1, t, l, count =>
    let count := count + 1
    let l := l - 1
    if isDigit (line.getD (t + 1) 0) then hdrRun2 line fuel (t + 1) l count
    else (count, t + 1, l)

/-- The `while (l > 0 && isDigit(*t))` length-field runs of the header
scanner. -/
def hdrLenRun (line : Str) : Nat → Nat → Nat → Nat → Nat × Nat × Nat
  | 0, t, l, count => (count, t, l)
  | fuel + 1, t, l, count =>
    if 0 < l ∧ isDigit (line.getD t 0) then hdrLenRun line fuel (t + 1) (l - 1) (count + 1)
    else (count, t, l)

/-- Header scanner and field assembly of `patch_fromText` (the regexp
replacement for `^@@ -(\d+),?(\d*) \+(\d+),?(\d*) @@$`, then the start/length
adjustments).  Out-of-range reads (possible in C++ only on rejected inputs)
read the default character 0; `patch.start1--` on a parsed 0 wraps as
`size_t` does; a failed `parseInt` leaves the default-initialised field 0.
Returns `(start1, length1, start2, length2)`. -/
def hdrParse (line : Str) : Option (Nat × Nat × Nat × Nat) :=
  let len := line.length
  let l0 := w64 (len + 2 ^ 64 - 9)
  if 0 < l0 ∧ line.getD 0 0 = 64 ∧ line.getD 1 0 = 64 ∧ line.getD 2 0 = 32 ∧
      line.getD 3 0 = 45 ∧ isDigit (line.getD 4 0) then
    match hdrRun1 line (len + 1) 4 l0 0 with
    | (start1, t, l) =>
      let c := if 0 < l ∧ line.getD t 0 = 44 then (t + 1, l - 1) else (t, l)
      let lp1 := c.1
      match hdrLenRun line (len + 1) c.1 c.2 0 with
      | (length1, t, l) =>
        if 0 < l ∧ line.getD t 0 = 32 ∧ line.getD (t + 1) 0 = 43 ∧
            isDigit (line.getD (t + 2) 0) then
          let sp2 := t + 2
          match hdrRun2 line (len + 1) (t + 2) l 0 with
          | (start2, t, l) =>
            let c2 := if 0 < l ∧ line.getD t 0 = 44 then (t + 1, l - 1) else (t, l)
            let lp2 := c2.1
            match hdrLenRun line (len + 1) c2.1 c2.2 0 with
            | (length2, t, l) =>
              if l = 0 ∧ line.getD t 0 = 32 ∧ line.getD (t + 1) 0 = 64 ∧
                  line.getD (t + 2) 0 = 64 then
                let s1 := (parseIntU (substr line 4 start1)).getD 0
                let f1 :=
                  if length1 = 0 then (if s1 = 0 then 2 ^ 64 - 1 else s1 - 1, 1)
                  else if length1 = 1 ∧ line.getD lp1 0 = 48 then (s1, 0)
                  else (if s1 = 0 then 2 ^ 64 - 1 else s1 - 1,
                    (parseIntU (substr line lp1 length1)).getD 0)
                let s2 := (parseIntU (substr line sp2 start2)).getD 0
                let f2 :=
                  if length2 = 0 then (if s2 = 0 then 2 ^ 64 - 1 else s2 - 1, 1)
                  else if length2 = 1 ∧ line.getD lp2 0 = 48 then (s2, 0)
                  else (if s2 = 0 then 2 ^ 64 - 1 else s2 - 1,
                    (parseIntU (substr line lp2 length2)).getD 0)
                some (f1.1, f1.2, f2.1, f2.2)
              else none
        else none
  else none

/-- Body-line loop of `patch_fromText`: collects sign-prefixed diff lines
until the next header or the end of input.  Result: `none` is exhausted
fuel, `some none` the hard `return false` (bad escape or bad sign; the
current patch is abandoned), `some (some (diffs, line, start, more))` a
normal exit carrying the last `line` value (the next header when `more`,
otherwise the stale final line the outer loop will re-parse). -/
def pftBody (textline : Str) (len : Nat) :
    Nat → Nat → Str → List Diff → Option (Option (List Diff × Str × Nat × Bool))
  | 0, _, _, _ => none
  | fuel + 1, start, line, acc =>
    match nextLine textline len 10 start with
    | none => some (some (acc, line, start, false))
    | some (line2, start2) =>
      if line2.length = 0 then pftBody textline len fuel start2 line2 acc
      else
        let sign := line2.getD 0 0
        if sign = 64 then some (some (acc, line2, start2, true))
        else
          match percentDecodePlus (substrFrom line2 1) with
          | none => some none
          | some dec =>
            if sign = 45 then
              pftBody textline len fuel start2 line2 (acc ++ [⟨Operation.DELETE, dec⟩])
            else if sign = 43 then
              pftBody textline len fuel start2 line2 (acc ++ [⟨Operation.INSERT, dec⟩])
            else if sign = 32 then
              pftBody textline len fuel start2 line2 (acc ++ [⟨Operation.EQUAL, dec⟩])
            else some none

/-- The `while (true)` patch loop of `patch_fromText`.  The loop never
tests for end of input: after the last patch it re-parses the stale `line`,
so it can only leave via a header-parse failure (`return false`) or loop
forever; `none` is exhausted fuel, covering the divergence. -/
def pftLoop : Nat → Str → Nat → Str → Nat → List Patch → Option (List Patch × Bool)
  | 0, _, _, _, _, _ => none
  | fuel + 1, textline, len, line, start, patches =>
    match hdrParse line with
    | none => some (patches, false)
    | some (s1, l1, s2, l2) =>
      match pftBody textline len (fuel + 1) start line [] with
      | none => none
      | some none => some (patches, false)
      | some (some (diffs, line2, start2, _)) =>
        pftLoop fuel textline len line2 start2 (patches ++ [⟨diffs, s1, s2, l1, l2⟩])

/-- `patch_fromText` of `dmp_algorithms_patch.h`: returns the patch
container contents together with the success flag. -/
def patch_fromText (fuel : Nat) (textline : Str) : Option (List Patch × Bool) :=
  let len := textline.length
  match nextLine textline len 10 0 with
  | none => some ([], true)
  | some (line, start) => pftLoop fuel textline len line start []

/-! ### `diff_commonOverlap` and the semantic cleanups
(`part_014`, `dmp_algorithms_diff.h`) -/

/-- Loop of `diff_commonOverlap`, on the already-truncated equal-length
texts (`tl` is their common length).  `best` and `length` are the loop
variables; the `length` increment happens only when the quick check
succeeds, exactly as in the source.  On the reachable states `length ≤ tl`
always holds, so the `text_length - length` subtraction never wraps; the
loop strictly increases `length`, so `tl + 2` fuel never runs out from the
wrapper below. -/
def overlapLoop : Nat → Str → Str → Nat → Nat → Nat → Option Nat
  | 0, _, _, _, _, _ => none
  | fuel + 1, text1, text2, tl, best, length =>
    let pat := substrFrom text1 (tl - length)
    match strFind text2 pat 0 with
    | none => some best
    | some found =>
      let len2 := length + found
      if found = 0 ∨ substrFrom text1 (tl - len2) = substr text2 0 len2 then
        overlapLoop fuel text1 text2 tl len2 (len2 + 1)
      else overlapLoop fuel text1 text2 tl best len2

/-- `diff_commonOverlap` of `part_014`: the length of the longest suffix of
`text1` that is a prefix of `text2`. -/
def diff_commonOverlap (text1 text2 : Str) : Option Nat :=
  if text1.length = 0 ∨ text2.length = 0 then some 0
  else
    let t1 :=
      if text1.length > text2.length then substrFrom text1 (text1.length - text2.length)
      else text1
    let t2 :=
      if text1.length < text2.length then substr text2 0 text1.length else text2
    let tl := min text1.length text2.length
    if t1 = t2 then some tl
    else overlapLoop (tl + 2) t1 t2 tl 0 1

/-- `utils::isAlpha` of `dmp_encoding.h`. -/
def isAlphaChr (c : Chr) : Bool :=
  (decide (97 ≤ c) && decide (c ≤ 122)) || (decide (65 ≤ c) && decide (c ≤ 90))

/-- `utils::isDigit` of `dmp_encoding.h` (the delta codec defines the same
predicate as `isDigit` below; both are the `'0' ≤ c ≤ '9'` test). -/
def isDigitChr (c : Chr) : Bool := decide (48 ≤ c) && decide (c ≤ 57)

/-- `utils::isAlphaNum` of `dmp_encoding.h`. -/
def isAlphaNumChr (c : Chr) : Bool := isDigitChr c || isAlphaChr c

/-- `utils::isControl` of `dmp_encoding.h`: carriage return or newline. -/
def isControlChr (c : Chr) : Bool := decide (c = 13) || decide (c = 10)

/-- `utils::isSpace` of `dmp_encoding.h`. -/
def isSpaceChr (c : Chr) : Bool :=
  decide (c = 32) || decide (c = 9) || decide (c = 10) ||
  decide (c = 11) || decide (c = 12) || decide (c = 13)

/-- Read a character at a signed index.  The out-of-range reads the C++
pointer walks of `diff_cleanupSemanticScore` can perform are undefined
behaviour there; the embedding reads them as 0. -/
def getC (s : Str) (i : ℤ) : Chr := if 0 ≤ i then s.getD i.toNat 0 else 0

/-- The `blankLine1` pointer walk of `diff_cleanupSemanticScore`: does `one`
end in a blank line (`\n<optional \r>\n` not at the very start)? -/
def blankLineEnd (one : Str) : Bool :=
  let len : ℤ := one.length
  if getC one (len - 1) = 10 then
    let p1n := len - 1
    let p1 := p1n - 1
    if p1 ≠ 0 then
      let p1b := if getC one p1 = 13 then p1n - 2 else p1
      decide (p1b ≠ 0) && decide (getC one p1b = 10)
    else false
  else false

/-- The `blankLine2` pointer walk of `diff_cleanupSemanticScore`: does `two`
start with a blank line (`<optional \r>\n<optional \r>\n`)? -/
def blankLineStart (two : Str) : Bool :=
  let len : ℤ := two.length
  let j0 : ℤ := if getC two 0 = 13 then 1 else 0
  if j0 ≠ len ∧ getC two j0 = 10 then
    let j1 := j0 + 1
    let j2 := if j1 ≠ len ∧ getC two j1 = 13 then j1 + 1 else j1
    decide (j2 ≠ len) && decide (getC two j2 = 10)
  else false

/-- `diff_cleanupSemanticScore` of `dmp_algorithms_diff.h`. -/
def semScore (one two : Str) : ℤ :=
  if one.length = 0 ∨ two.length = 0 then 6
  else
    let char1 := getC one ((one.length : ℤ) - 1)
    let char2 := getC two 0
    let nonAlphaNumeric1 := !isAlphaNumChr char1
    let nonAlphaNumeric2 := !isAlphaNumChr char2
    let whitespace1 := nonAlphaNumeric1 && isSpaceChr char1
    let whitespace2 := nonAlphaNumeric2 && isSpaceChr char2
    let lineBreak1 := whitespace1 && isControlChr char1
    let lineBreak2 := whitespace2 && isControlChr char2
    let blankLine1 := lineBreak1 && blankLineEnd one
    let blankLine2 := lineBreak2 && blankLineStart two
    if blankLine1 || blankLine2 then 5
    else if lineBreak1 || lineBreak2 then 4
    else if nonAlphaNumeric1 && !whitespace1 && whitespace2 then 3
    else if whitespace1 || whitespace2 then 2
    else if nonAlphaNumeric1 || nonAlphaNumeric2 then 1
    else 0

/-- The character-by-character right-stepping walk of
`diff_cleanupSemanticLossless`, tracking the best split seen so far.  Each
step moves the first character of the edit onto `equality1` and pulls the
first character of `equality2` onto the edit; `equality2` shrinks, so the
`equality2.length + 2` fuel of the caller never runs out. -/
def cslWalk : Nat → Str → Str → Str → (Str × Str × Str) → ℤ → Option (Str × Str × Str)
  | 0, _, _, _, _, _ => none
  | fuel + 1, eq1, edit, eq2, best, bestScore =>
    if edit.length ≠ 0 ∧ eq2.length ≠ 0 ∧ edit.headD 0 = eq2.headD 0 then
      let eq1' := eq1 ++ substr edit 0 1
      let edit' := substrFrom edit 1 ++ substr eq2 0 1
      let eq2' := substrFrom eq2 1
      let score := semScore eq1' edit' + semScore edit' eq2'
      if score ≥ bestScore then cslWalk fuel eq1' edit' eq2' (eq1', edit', eq2') score
      else cslWalk fuel eq1' edit' eq2' best bestScore
    else some best

/-- Loop of `diff_cleanupSemanticLossless`.  The pointer is signed: the two
`pointer--` decrements can drive it to `-1` (in C++, to `SIZE_MAX`, which
the `pointer++` at the bottom wraps back to 0); list reads at out-of-range
positions (undefined behaviour in C++) yield the default diff. -/
def csl : Nat → List Diff → ℤ → Option (List Diff)
  | 0, _, _ => none
  | fuel + 1, diffs, pointer =>
    if toSizeT pointer < diffs.length - 1 then
      let p := toSizeT pointer
      let pm1 := toSizeT (pointer - 1)
      if (diffs.getD pm1 dDiff).operation = Operation.EQUAL ∧
          (diffs.getD (p + 1) dDiff).operation = Operation.EQUAL then
        let eq1 := (diffs.getD pm1 dDiff).text
        let edit := (diffs.getD p dDiff).text
        let eq2 := (diffs.getD (p + 1) dDiff).text
        let co := diff_commonSuffix eq1 edit
        let s :=
          if co > 0 then
            let commonString := substrFrom edit (edit.length - co)
            (substr eq1 0 (eq1.length - co),
             commonString ++ substr edit 0 (edit.length - co), commonString ++ eq2)
          else (eq1, edit, eq2)
        match s with
        | (eq1a, edita, eq2a) =>
          let score0 := semScore eq1a edita + semScore edita eq2a
          match cslWalk (eq2a.length + 2) eq1a edita eq2a (eq1a, edita, eq2a) score0 with
          | none => none
          | some (b1, bed, b2) =>
            if (diffs.getD pm1 dDiff).text ≠ b1 then
              let s1 :=
                if b1.length ≠ 0 then
                  (diffs.set pm1 ⟨(diffs.getD pm1 dDiff).operation, b1⟩, pointer)
                else (splice diffs pm1 1 [], pointer - 1)
              match s1 with
              | (diffs1, pointer1) =>
                let q := toSizeT pointer1
                let diffs2 := diffs1.set q ⟨(diffs1.getD q dDiff).operation, bed⟩
                let s2 :=
                  if b2.length ≠ 0 then
                    (diffs2.set (q + 1) ⟨(diffs2.getD (q + 1) dDiff).operation, b2⟩, pointer1)
                  else (splice diffs2 (q + 1) 1 [], pointer1 - 1)
                match s2 with
                | (diffs3, pointer3) => csl fuel diffs3 (pointer3 + 1)
            else csl fuel diffs (pointer + 1)
      else csl fuel diffs (pointer + 1)
    else some diffs

/-- `diff_cleanupSemanticLossless` of `dmp_algorithms_diff.h`. -/
def diff_cleanupSemanticLossless (fuel : Nat) (diffs : List Diff) : Option (List Diff) :=
  if diffs.length = 0 then some diffs else csl fuel diffs 1

/-- First loop of `diff_cleanupSemantic`: eliminate equalities smaller than
the edits on both sides.  The equality stack grows at the head (C++
`push_back`/`back`/`pop_back` act at the end); `back` on an empty stack is
undefined behaviour in C++ and reads 0 here, guarded in the source by
`lastEquality` being non-empty.  The state is
`(diffs, stack, lastEquality, pointer, (ins1, del1, ins2, del2), changes)`. -/
def cs1 : Nat → List Diff → List ℤ → Str → ℤ → Nat × Nat × Nat × Nat → Bool →
    Option (List Diff × Bool)
  | 0, _, _, _, _, _, _ => none
  | fuel + 1, diffs, eqs, lastEq, pointer, (li1, ld1, li2, ld2), changes =>
    if toSizeT pointer < diffs.length then
      let p := toSizeT pointer
      let d := diffs.getD p dDiff
      if d.operation = Operation.EQUAL then
        cs1 fuel diffs (pointer :: eqs) d.text (pointer + 1) (li2, ld2, 0, 0) changes
      else
        let li2' := if d.operation = Operation.INSERT then li2 + d.text.length else li2
        let ld2' := if d.operation = Operation.DELETE then ld2 + d.text.length else ld2
        if lastEq.length > 0 ∧ lastEq.length ≤ max li1 ld1 ∧ lastEq.length ≤ max li2' ld2' then
          let back := toSizeT (eqs.headD 0)
          let diffs1 := splice diffs back 0 [⟨Operation.DELETE, lastEq⟩]
          let diffs2 := diffs1.set (back + 1)
            ⟨Operation.INSERT, (diffs1.getD (back + 1) dDiff).text⟩
          let eqs1 := eqs.tail
          let eqs2 := if eqs1.length > 0 then eqs1.tail else eqs1
          let pointer' : ℤ := if eqs2.length > 0 then eqs2.headD 0 else -1
          cs1 fuel diffs2 eqs2 [] (pointer' + 1) (0, 0, 0, 0) true
        else cs1 fuel diffs eqs lastEq (pointer + 1) (li1, ld1, li2', ld2') changes
    else some (diffs, changes)

/-- Overlap-extraction loop of `diff_cleanupSemantic` (its second half). -/
def csOverlap : Nat → List Diff → ℤ → Option (List Diff)
  | 0, _, _ => none
  | fuel + 1, diffs, pointer =>
    if toSizeT pointer < diffs.length then
      let p := toSizeT pointer
      if (diffs.getD (p - 1) dDiff).operation = Operation.DELETE ∧
          (diffs.getD p dDiff).operation = Operation.INSERT then
        let deletion := (diffs.getD (p - 1) dDiff).text
        let insertion := (diffs.getD p dDiff).text
        match diff_commonOverlap deletion insertion, diff_commonOverlap insertion deletion with
        | some ol1, some ol2 =>
          if ol1 ≥ ol2 then
            if 2 * ol1 ≥ deletion.length ∨ 2 * ol1 ≥ insertion.length then
              let diffs1 := splice diffs p 0 [⟨Operation.EQUAL, substr insertion 0 ol1⟩]
              let diffs2 := diffs1.set (p - 1)
                ⟨Operation.DELETE, substr deletion 0 (deletion.length - ol1)⟩
              let diffs3 := diffs2.set (p + 1) ⟨Operation.INSERT, substrFrom insertion ol1⟩
              csOverlap fuel diffs3 (pointer + 3)
            else csOverlap fuel diffs (pointer + 2)
          else
            if 2 * ol2 ≥ deletion.length ∨ 2 * ol2 ≥ insertion.length then
              let diffs1 := splice diffs p 0 [⟨Operation.EQUAL, substr deletion 0 ol2⟩]
              let diffs2 := diffs1.set (p - 1)
                ⟨Operation.INSERT, substr insertion 0 (insertion.length - ol2)⟩
              let diffs3 := diffs2.set (p + 1) ⟨Operation.DELETE, substrFrom deletion ol2⟩
              csOverlap fuel diffs3 (pointer + 3)
            else csOverlap fuel diffs (pointer + 2)
        | _, _ => none
      else csOverlap fuel diffs (pointer + 1)
    else some diffs

/-- `diff_cleanupSemantic` of `dmp_algorithms_diff.h`. -/
def diff_cleanupSemantic (fuel : Nat) (diffs : List Diff) : Option (List Diff) :=
  if diffs.length = 0 then some diffs
  else
    match cs1 fuel diffs [] [] 0 (0, 0, 0, 0) false with
    | none => none
    | some (d1, changes) =>
      match (if changes then diff_cleanupMerge fuel d1 else some d1) with
      | none => none
      | some d2 =>
        match diff_cleanupSemanticLossless fuel d2 with
        | none => none
        | some d3 => csOverlap fuel d3 1

/-- Loop of `diff_cleanupEfficiency`.  State:
`(diffs, stack, lastEquality, pointer, (pre_ins, pre_del, post_ins,
post_del), changes)`; the stack grows at the head as in `cs1`. -/
def ce1 : Nat → Settings → List Diff → List ℤ → Str → ℤ → Bool × Bool × Bool × Bool → Bool →
    Option (List Diff × Bool)
  | 0, _, _, _, _, _, _, _ => none
  | fuel + 1, st, diffs, eqs, lastEq, pointer, (preIns, preDel, postIns, postDel), changes =>
    if toSizeT pointer < diffs.length then
      let p := toSizeT pointer
      let d := diffs.getD p dDiff
      if d.operation = Operation.EQUAL then
        if d.text.length < toSizeT st.Diff_EditCost ∧ (postIns ∨ postDel) then
          ce1 fuel st diffs (pointer :: eqs) d.text (pointer + 1)
            (postIns, postDel, false, false) changes
        else
          ce1 fuel st diffs [] [] (pointer + 1) (preIns, preDel, false, false) changes
      else
        let postIns' := postIns ∨ d.operation = Operation.INSERT
        let postDel' := postDel ∨ d.operation = Operation.DELETE
        if lastEq.length ≠ 0 ∧
            ((preIns ∧ preDel ∧ postIns' ∧ postDel') ∨
              (lastEq.length < toSizeT (Int.tdiv st.Diff_EditCost 2) ∧
                (cond preIns 1 0) + (cond preDel 1 0) + (cond postIns' 1 0) +
                  (cond postDel' 1 0) = 3)) then
          let back := toSizeT (eqs.headD 0)
          let diffs1 := splice diffs back 0 [⟨Operation.DELETE, lastEq⟩]
          let diffs2 := diffs1.set (back + 1)
            ⟨Operation.INSERT, (diffs1.getD (back + 1) dDiff).text⟩
          let eqs1 := eqs.tail
          if preIns ∧ preDel then
            ce1 fuel st diffs2 [] [] (pointer + 1) (preIns, preDel, true, true) true
          else
            let eqs2 := if eqs1.length > 0 then eqs1.tail else eqs1
            let pointer' : ℤ := if eqs2.length > 0 then eqs2.headD 0 else -1
            ce1 fuel st diffs2 eqs2 [] (pointer' + 1) (preIns, preDel, false, false) true
        else
          ce1 fuel st diffs eqs lastEq (pointer + 1) (preIns, preDel, postIns', postDel') changes
    else some (diffs, changes)

/-- `diff_cleanupEfficiency` of `dmp_algorithms_diff.h`. -/
def diff_cleanupEfficiency (fuel : Nat) (st : Settings) (diffs : List Diff) :
    Option (List Diff) :=
  if diffs.length = 0 then some diffs
  else
    match ce1 fuel st diffs [] [] 0 (false, false, false, false) false with
    | none => none
    | some (d1, changes) => if changes then diff_cleanupMerge fuel d1 else some d1

/-! ### Line mode (`diff_linesToChars`, `diff_charsToLines`) -/

/-- Lookup in the `lineHash` association map (keys are lines, values the
assigned codes). -/
def hashLookup : List (Str × Nat) → Str → Option Nat
  | [], _ => none
  | (key, v) :: rest, line => if key = line then some v else hashLookup rest line

/-- The do-while loop of `diff_linesToCharsMunge`.  `lineStart` strictly
increases, so the `text.length + 2` fuel of the wrapper never runs out.
The `encoding_char_t` codes are modelled as naturals; the 40000/65535 caps
keep the C++ values below any wrap. -/
def mungeLoop : Nat → Str → List (Str × Nat) → Nat → Nat → List Chr →
    Option (List Chr × List (Str × Nat))
  | 0, _, _, _, _, _ => none
  | fuel + 1, text, lineHash, maxLines, lineStart, acc =>
    let len := text.length
    let lineEnd0 := match charFind text 10 lineStart with
      | none => len - 1
      | some e => e
    let line0 := substr text lineStart (lineEnd0 + 1 - lineStart)
    let id := lineHash.length + 1
    let s := if id = maxLines then (substrFrom text lineStart, len) else (line0, lineEnd0)
    match s with
    | (line, lineEnd) =>
      let r := match hashLookup lineHash line with
        | some v => (v, lineHash)
        | none => (id, lineHash ++ [(line, id)])
      match r with
      | (v, hash') =>
        if lineEnd < len - 1 then mungeLoop fuel text hash' maxLines (lineEnd + 1) (acc ++ [v])
        else some (acc ++ [v], hash')

/-- `diff_linesToCharsMunge` of `dmp_algorithms_diff.h`. -/
def diff_linesToCharsMunge (text : Str) (lineHash : List (Str × Nat)) (maxLines : Nat) :
    Option (List Chr × List (Str × Nat)) :=
  if text.length = 0 then some ([], lineHash)
  else mungeLoop (text.length + 2) text lineHash maxLines 0 []

/-- The `lines` array built at the end of `diff_linesToChars`: size
`lineHash.size() + 1`, entry `p.second` holds line `p.first`. -/
def linesOf (lineHash : List (Str × Nat)) : List Str :=
  lineHash.foldl (fun lines q => lines.set q.2 q.1)
    (List.replicate (lineHash.length + 1) [])

/-- `diff_linesToChars` of `dmp_algorithms_diff.h`: encode both texts
line-by-line (2/3rds of the code space for `text1`). -/
def diff_linesToChars (text1 text2 : Str) :
    Option (List Chr × List Chr × List Str) :=
  match diff_linesToCharsMunge text1 [] 40000 with
  | none => none
  | some (e1, h1) =>
    match diff_linesToCharsMunge text2 h1 65535 with
    | none => none
    | some (e2, h2) => some (e1, e2, linesOf h2)

/-- `diff_charsToLines` of `dmp_algorithms_diff.h`: rehydrate each encoded
diff through the `lines` array. -/
def diff_charsToLines (eDiffs : List Diff) (lines : List Str) : List Diff :=
  eDiffs.map (fun ed => ⟨ed.operation, ed.text.flatMap (fun c => lines.getD c [])⟩)

/-! ### Half match (`HalfMatchResult` of `dmp_algorithms_diff.h`) -/

/-- The `HalfMatchResult` record: prefix/suffix of the long text,
prefix/suffix of the short text, and the common middle. -/
structure HalfMatchResult : Type where
  best_longtext_a : Str
  best_longtext_b : Str
  best_shorttext_a : Str
  best_shorttext_b : Str
  best_common : Str
deriving DecidableEq, Repr

/-- The `j` loop of `HalfMatchResult::diff_halfMatchI`.  `j = none` models
`npos` before the first search; the C++ `j + 1` on `npos` wraps to 0 in
`size_t` arithmetic.  Found positions strictly increase, so the caller's
`shorttext.length + 2` fuel never runs out. -/
def hmILoop : Nat → Str → Str → Nat → Str → Option Nat → HalfMatchResult →
    Option HalfMatchResult
  | 0, _, _, _, _, _, _ => none
  | fuel + 1, longtext, shorttext, i, seed, j, hm =>
    if j = none ∨ j.getD 0 < shorttext.length then
      match strFind shorttext seed (match j with | none => 0 | some v => v + 1) with
      | none => some hm
      | some jv =>
        let prefixLength := diff_commonPrefix (substrFrom longtext i) (substrFrom shorttext jv)
        let suffixLength := diff_commonSuffix (substr longtext 0 i) (substr shorttext 0 jv)
        let hm' :=
          if hm.best_common.length < suffixLength + prefixLength then
            ⟨substr longtext 0 (i - suffixLength), substrFrom longtext (i + prefixLength),
             substr shorttext 0 (jv - suffixLength), substrFrom shorttext (jv + prefixLength),
             substr shorttext (jv - suffixLength) (suffixLength + prefixLength)⟩
          else hm
        hmILoop fuel longtext shorttext i seed (some jv) hm'
    else some hm

/-- `diff_halfMatchI`: seeded search for a common middle of at least half
the long text's length; returns the success flag together with the
accumulated result. -/
def diff_halfMatchI (longtext shorttext : Str) (i : Nat) :
    Option (Bool × HalfMatchResult) :=
  match hmILoop (shorttext.length + 2) longtext shorttext i
      (substr longtext i (longtext.length / 4)) none ⟨[], [], [], [], []⟩ with
  | none => none
  | some hm => some (decide (hm.best_common.length * 2 ≥ longtext.length), hm)

/-- `diff_halfMatch` of `dmp_algorithms_diff.h`.  The outer `Option` is
fuel exhaustion; the inner `Option` is the boolean result (`none` = no
half match). -/
def diff_halfMatch (st : Settings) (text1 text2 : Str) :
    Option (Option HalfMatchResult) :=
  if st.Diff_Timeout ≤ 0 then some none
  else
    let longtext := if text1.length > text2.length then text1 else text2
    let shorttext := if text1.length > text2.length then text2 else text1
    if longtext.length < 4 ∨ shorttext.length * 2 < longtext.length then some none
    else
      match diff_halfMatchI longtext shorttext ((longtext.length + 3) / 4) with
      | none => none
      | some (res1, hm1) =>
        match diff_halfMatchI longtext shorttext ((longtext.length + 1) / 2) with
        | none => none
        | some (res2, hm2) =>
          if ¬res1 ∧ ¬res2 then some none
          else
            let hm :=
              if ¬res2 then hm1
              else if ¬res1 then hm2
              else if hm1.best_common.length ≤ hm2.best_common.length then hm2 else hm1
            if text1.length > text2.length then some (some hm)
            else
              some (some ⟨hm.best_shorttext_a, hm.best_shorttext_b, hm.best_longtext_a,
                hm.best_longtext_b, hm.best_common⟩)

/-! ### `diff_bisect` (`dmp_algorithms_diff.h`) -/

/-- The `v1`/`v2` arrays and the four k-loop trim offsets of
`diff_bisect`. -/
structure BisectSt : Type where
  v1 : List ℤ
  v2 : List ℤ
  k1start : ℤ
  k1end : ℤ
  k2start : ℤ
  k2end : ℤ
deriving Repr

/-- Read a `v` array at an `int` index (array subscripts are in range on
every reachable state; an out-of-range read would be undefined behaviour
in C++ and yields `-1` here). -/
def vGet (v : List ℤ) (i : ℤ) : ℤ := v.getD (toSizeT i) (-1)

/-- Write a `v` array at an `int` index. -/
def vSet (v : List ℤ) (i x : ℤ) : List ℤ := v.set (toSizeT i) x

/-- The forward snake walk of `diff_bisect` (`while (x1 < text1_length &&
y1 < text2_length && d1[x1] == d2[y1])`).  `x1` strictly increases, so the
`|text1| + |text2| + 2` fuel of the callers never runs out. -/
def bisectWalk1 : Nat → Str → Str → ℤ → ℤ → Option (ℤ × ℤ)
  | 0, _, _, _, _ => none
  | fuel + 1, t1, t2, x1, y1 =>
    if x1 < (t1.length : ℤ) ∧ y1 < (t2.length : ℤ) ∧
        t1.getD (toSizeT x1) 0 = t2.getD (toSizeT y1) 0 then
      bisectWalk1 fuel t1 t2 (x1 + 1) (y1 + 1)
    else some (x1, y1)

/-- The reverse snake walk of `diff_bisect`. -/
def bisectWalk2 : Nat → Str → Str → ℤ → ℤ → Option (ℤ × ℤ)
  | 0, _, _, _, _ => none
  | fuel + 1, t1, t2, x2, y2 =>
    if x2 < (t1.length : ℤ) ∧ y2 < (t2.length : ℤ) ∧
        t1.getD (toSizeT ((t1.length : ℤ) - x2 - 1)) 0 =
          t2.getD (toSizeT ((t2.length : ℤ) - y2 - 1)) 0 then
      bisectWalk2 fuel t1 t2 (x2 + 1) (y2 + 1)
    else some (x2, y2)

/-- The front-path `k1` loop of `diff_bisect`: either an overlap `(x1, y1)`
is detected (`Sum.inl`) or the loop completes with the updated state. -/
def bisectK1 : Nat → Str → Str → ℤ → ℤ → ℤ → Bool → ℤ → ℤ → BisectSt →
    Option ((ℤ × ℤ) ⊕ BisectSt)
  | 0, _, _, _, _, _, _, _, _, _ => none
  | fuel + 1, t1, t2, voffset, vlength, delta, front, d, k1, st =>
    if k1 ≤ d - st.k1end then
      let k1o := voffset + k1
      let x1 :=
        if k1 = -d ∨ (k1 ≠ d ∧ vGet st.v1 (k1o - 1) < vGet st.v1 (k1o + 1)) then
          vGet st.v1 (k1o + 1)
        else vGet st.v1 (k1o - 1) + 1
      match bisectWalk1 (t1.length + t2.length + 2) t1 t2 x1 (x1 - k1) with
      | none => none
      | some (x1', y1') =>
        let st' : BisectSt := ⟨vSet st.v1 k1o x1', st.v2, st.k1start, st.k1end,
          st.k2start, st.k2end⟩
        if x1' > (t1.length : ℤ) then
          bisectK1 fuel t1 t2 voffset vlength delta front d (k1 + 2)
            ⟨st'.v1, st'.v2, st'.k1start, st'.k1end + 2, st'.k2start, st'.k2end⟩
        else if y1' > (t2.length : ℤ) then
          bisectK1 fuel t1 t2 voffset vlength delta front d (k1 + 2)
            ⟨st'.v1, st'.v2, st'.k1start + 2, st'.k1end, st'.k2start, st'.k2end⟩
        else if front then
          let k2o := voffset + delta - k1
          if 0 ≤ k2o ∧ k2o < vlength ∧ vGet st'.v2 k2o ≠ -1 then
            let x2 := (t1.length : ℤ) - vGet st'.v2 k2o
            if x1' ≥ x2 then some (Sum.inl (x1', y1'))
            else bisectK1 fuel t1 t2 voffset vlength delta front d (k1 + 2) st'
          else bisectK1 fuel t1 t2 voffset vlength delta front d (k1 + 2) st'
        else bisectK1 fuel t1 t2 voffset vlength delta front d (k1 + 2) st'
    else some (Sum.inr st)

/-- The reverse-path `k2` loop of `diff_bisect`. -/
def bisectK2 : Nat → Str → Str → ℤ → ℤ → ℤ → Bool → ℤ → ℤ → BisectSt →
    Option ((ℤ × ℤ) ⊕ BisectSt)
  | 0, _, _, _, _, _, _, _, _, _ => none
  | fuel + 1, t1, t2, voffset, vlength, delta, front, d, k2, st =>
    if k2 ≤ d - st.k2end then
      let k2o := voffset + k2
      let x2 :=
        if k2 = -d ∨ (k2 ≠ d ∧ vGet st.v2 (k2o - 1) < vGet st.v2 (k2o + 1)) then
          vGet st.v2 (k2o + 1)
        else vGet st.v2 (k2o - 1) + 1
      match bisectWalk2 (t1.length + t2.length + 2) t1 t2 x2 (x2 - k2) with
      | none => none
      | some (x2', y2') =>
        let st' : BisectSt := ⟨st.v1, vSet st.v2 k2o x2', st.k1start, st.k1end,
          st.k2start, st.k2end⟩
        if x2' > (t1.length : ℤ) then
          bisectK2 fuel t1 t2 voffset vlength delta front d (k2 + 2)
            ⟨st'.v1, st'.v2, st'.k1start, st'.k1end, st'.k2start, st'.k2end + 2⟩
        else if y2' > (t2.length : ℤ) then
          bisectK2 fuel t1 t2 voffset vlength delta front d (k2 + 2)
            ⟨st'.v1, st'.v2, st'.k1start, st'.k1end, st'.k2start + 2, st'.k2end⟩
        else if ¬front then
          let k1o := voffset + delta - k2
          if 0 ≤ k1o ∧ k1o < vlength ∧ vGet st'.v1 k1o ≠ -1 then
            let x1 := vGet st'.v1 k1o
            let x2m := (t1.length : ℤ) - vGet st'.v2 k2o
            if x1 ≥ x2m then some (Sum.inl (x1, voffset + x1 - k1o))
            else bisectK2 fuel t1 t2 voffset vlength delta front d (k2 + 2) st'
          else bisectK2 fuel t1 t2 voffset vlength delta front d (k2 + 2) st'
        else bisectK2 fuel t1 t2 voffset vlength delta front d (k2 + 2) st'
    else some (Sum.inr st)

/-- The `d` loop of `diff_bisect`.  One `hitDeadline()` oracle query is
consumed per iteration; a hit breaks out with no overlap. -/
def bisectD : Nat → (Nat → Bool) → Str → Str → ℤ → ℤ → ℤ → Bool → ℤ → ℤ →
    BisectSt → Nat → Option (Option (ℤ × ℤ) × Nat)
  | 0, _, _, _, _, _, _, _, _, _, _, _ => none
  | fuel + 1, o, t1, t2, voffset, vlength, delta, front, maxd, d, st, k =>
    if d < maxd then
      if o k then some (none, k + 1)
      else
        match bisectK1 (d.toNat + 2) t1 t2 voffset vlength delta front d
            (-d + st.k1start) st with
        | none => none
        | some (Sum.inl xy) => some (some xy, k + 1)
        | some (Sum.inr st') =>
          match bisectK2 (d.toNat + 2) t1 t2 voffset vlength delta front d
              (-d + st'.k2start) st' with
          | none => none
          | some (Sum.inl xy) => some (some xy, k + 1)
          | some (Sum.inr st'') =>
            bisectD fuel o t1 t2 voffset vlength delta front maxd (d + 1) st'' (k + 1)
    else some (none, k)

/-- The inner `diff_bisect` overload: find the middle snake, returning
`none` for "took too long / no commonality" and the split point
otherwise.  All `int` arithmetic is exact (signed overflow would be
undefined behaviour in C++). -/
def diff_bisectInner (o : Nat → Bool) (t1 t2 : Str) (k : Nat) :
    Option (Option (ℤ × ℤ) × Nat) :=
  let len1 : ℤ := t1.length
  let len2 : ℤ := t2.length
  let max_d : ℤ := Int.tdiv (len1 + len2 + 1) 2
  let v_offset := max_d
  let v_length := 2 * max_d
  let v0 : List ℤ := List.replicate (toSizeT v_length) (-1)
  let v1 := vSet v0 (v_offset + 1) 0
  let v2 := vSet v0 (v_offset + 1) 0
  let delta := len1 - len2
  let front := decide (delta % 2 ≠ 0)
  bisectD (max_d.toNat + 2) o t1 t2 v_offset v_length delta front max_d 0
    ⟨v1, v2, 0, 0, 0, 0⟩ k

/-! ### `diff_main` and `diff_compute`

The C++ functions `diff_main`, `diff_compute`, `diff_lineMode` and
`diff_bisectSplit` are mutually recursive through plain calls; the
embedding breaks the cycle by passing the recursive `diff_main` call (at
one smaller fuel, closing over the deadline oracle and the settings) as
the `rec` parameter of the helpers, so `diff_mainR` below is plainly
structural in its fuel.  The deadline clock is modelled by an oracle
`o : Nat → Bool` answering the successive `hitDeadline()` calls, with the
call counter `k` threaded through every function. -/

/-- The re-diff loop at the end of `diff_lineMode` ("Rediff any replacement
blocks, this time character-by-character"), with state
`(diffs, pointer, count_delete, count_insert, text_delete, text_insert)`. -/
def lmLoopF (rec : Str → Str → Bool → Nat → Option (List Diff × Nat)) :
    Nat → List Diff → Nat → Nat → Nat → Str → Str → Nat → Option (List Diff × Nat)
  | 0, _, _, _, _, _, _, _ => none
  | fuel + 1, diffs, pointer, cd, ci, tdel, tins, k =>
    if pointer < diffs.length then
      match (diffs.getD pointer dDiff).operation with
      | Operation.INSERT =>
        lmLoopF rec fuel diffs (pointer + 1) cd (ci + 1) tdel
          (tins ++ (diffs.getD pointer dDiff).text) k
      | Operation.DELETE =>
        lmLoopF rec fuel diffs (pointer + 1) (cd + 1) ci
          (tdel ++ (diffs.getD pointer dDiff).text) tins k
      | Operation.EQUAL =>
        if cd ≥ 1 ∧ ci ≥ 1 then
          match rec tdel tins false k with
          | none => none
          | some (sub, k') =>
            let p0 := pointer - cd - ci
            lmLoopF rec fuel (splice diffs p0 (cd + ci) sub) (p0 + sub.length + 1)
              0 0 [] [] k'
        else lmLoopF rec fuel diffs (pointer + 1) 0 0 [] [] k
    else some (diffs, k)

/-- `diff_lineMode` of `dmp_algorithms_diff.h`: line-level encode, diff the
encodings (`checklines = false`), rehydrate, `diff_cleanupSemantic`, and
re-diff the replacement blocks.  The encoded texts live in the same
character space (`Chr`), so the encoding-level `diff_main` is the same
recursive call. -/
def diff_lineModeF (rec : Str → Str → Bool → Nat → Option (List Diff × Nat))
    (fuel : Nat) (text1 text2 : Str) (k : Nat) : Option (List Diff × Nat) :=
  match diff_linesToChars text1 text2 with
  | none => none
  | some (s1, s2, linearray) =>
    match rec s1 s2 false k with
    | none => none
    | some (eDiffs, k1) =>
      let diffs0 := diff_charsToLines eDiffs linearray
      match diff_cleanupSemantic fuel diffs0 with
      | none => none
      | some diffs1 =>
        match lmLoopF rec fuel (diffs1 ++ [⟨Operation.EQUAL, []⟩]) 0 0 0 [] [] k1 with
        | none => none
        | some (diffs3, k2) => some (diffs3.dropLast, k2)

/-- `diff_bisectSplit` of `dmp_algorithms_diff.h`: split at the middle
snake and diff both halves serially. -/
def diff_bisectSplitF (rec : Str → Str → Bool → Nat → Option (List Diff × Nat))
    (text1 text2 : Str) (x y : Nat) (k : Nat) : Option (List Diff × Nat) :=
  match rec (substr text1 0 x) (substr text2 0 y) false k with
  | none => none
  | some (da, k1) =>
    match rec (substrFrom text1 x) (substrFrom text2 y) false k1 with
    | none => none
    | some (db, k2) => some (da ++ db, k2)

/-- The outer `diff_bisect` overload: on an overlap, recurse through
`diff_bisectSplit`; otherwise the diff is a full delete plus insert.  The
`int` split point is cast to `size_t` as in the source. -/
def diff_bisectF (rec : Str → Str → Bool → Nat → Option (List Diff × Nat))
    (o : Nat → Bool) (text1 text2 : Str) (k : Nat) : Option (List Diff × Nat) :=
  match diff_bisectInner o text1 text2 k with
  | none => none
  | some (some (x, y), k') => diff_bisectSplitF rec text1 text2 (toSizeT x) (toSizeT y) k'
  | some (none, k') =>
    some ([⟨Operation.DELETE, text1⟩, ⟨Operation.INSERT, text2⟩], k')

/-- `diff_compute` of `dmp_algorithms_diff.h`: the speedups, the half-match
split, and the dispatch to line mode or bisect. -/
def diff_computeF (rec : Str → Str → Bool → Nat → Option (List Diff × Nat))
    (fuel : Nat) (o : Nat → Bool) (st : Settings) (text1 text2 : Str)
    (checklines : Bool) (k : Nat) : Option (List Diff × Nat) :=
  if text1.length = 0 then some ([⟨Operation.INSERT, text2⟩], k)
  else if text2.length = 0 then some ([⟨Operation.DELETE, text1⟩], k)
  else
    let longtext := if text1.length > text2.length then text1 else text2
    let shorttext := if text1.length > text2.length then text2 else text1
    match strFind longtext shorttext 0 with
    | some i =>
      let op := if text1.length > text2.length then Operation.DELETE else Operation.INSERT
      some ([⟨op, substr longtext 0 i⟩, ⟨Operation.EQUAL, shorttext⟩,
             ⟨op, substrFrom longtext (i + shorttext.length)⟩], k)
    | none =>
      if shorttext.length = 1 then
        some ([⟨Operation.DELETE, text1⟩, ⟨Operation.INSERT, text2⟩], k)
      else
        match diff_halfMatch st text1 text2 with
        | none => none
        | some (some hm) =>
          match rec hm.best_longtext_a hm.best_shorttext_a checklines k with
          | none => none
          | some (da, k1) =>
            match rec hm.best_longtext_b hm.best_shorttext_b checklines k1 with
            | none => none
            | some (db, k2) =>
              some (da ++ [⟨Operation.EQUAL, hm.best_common⟩] ++ db, k2)
        | some none =>
          if checklines ∧ text1.length > 100 ∧ text2.length > 100 then
            diff_lineModeF rec fuel text1 text2 k
          else diff_bisectF rec o text1 text2 k

/-- The recursive `diff_main` overload of `dmp_algorithms_diff.h` (the one
taking a deadline): equality speedup, common prefix/suffix trim,
`diff_compute` on the middle, re-attachment of the prefix and suffix, and
`diff_cleanupMerge`. -/
def diff_mainR : Nat → (Nat → Bool) → Settings → Str → Str → Bool → Nat →
    Option (List Diff × Nat)
  | 0, _, _, _, _, _, _ => none
  | fuel + 1, o, st, text1, text2, checklines, k =>
    if text1 = text2 then
      some (if text1.length ≠ 0 then [⟨Operation.EQUAL, text1⟩] else [], k)
    else
      let cl := diff_commonPrefix text1 text2
      let cpfx := substr text1 0 cl
      let t1 := substrFrom text1 cl
      let t2 := substrFrom text2 cl
      let cs := diff_commonSuffix t1 t2
      let csfx := substrFrom t1 (t1.length - cs)
      let t1' := substr t1 0 (t1.length - cs)
      let t2' := substr t2 0 (t2.length - cs)
      match diff_computeF (diff_mainR fuel o st) fuel o st t1' t2' checklines k with
      | none => none
      | some (mid, k') =>
        let d1 := if cpfx.length ≠ 0 then pushFront mid ⟨Operation.EQUAL, cpfx⟩ else mid
        let d2 := if csfx.length ≠ 0 then d1 ++ [⟨Operation.EQUAL, csfx⟩] else d1
        match diff_cleanupMerge fuel d2 with
        | none => none
        | some out => some (out, k')

/-- The public `diff_main` overloads (with the `checklines` default
`true`): when `Diff_Timeout ≤ 0` no deadline is set and the
default-constructed clock never reports a hit, so the oracle is replaced
by the constantly-false one. -/
def diff_main (fuel : Nat) (o : Nat → Bool) (st : Settings) (text1 text2 : Str)
    (checklines : Bool) (k : Nat) : Option (List Diff × Nat) :=
  diff_mainR fuel (if st.Diff_Timeout ≤ 0 then fun _ => false else o) st
    text1 text2 checklines k

/-- Loop of `diff_xIndex` of `dmp_algorithms_diff.h`. -/
def xiLoop : List Diff → Nat → Nat → Nat → Nat → Nat → Nat
  | [], loc, _, _, last1, last2 => last2 + (loc - last1)
  | d :: rest, loc, chars1, chars2, last1, last2 =>
    let c1 := if d.operation ≠ Operation.INSERT then chars1 + d.text.length else chars1
    let c2 := if d.operation ≠ Operation.DELETE then chars2 + d.text.length else chars2
    if c1 > loc then
      (if d.operation = Operation.DELETE then last2 else last2 + (loc - last1))
    else xiLoop rest loc c1 c2 c1 c2

/-- `diff_xIndex`: map a location in `text1` to its equivalent in
`text2`. -/
def diff_xIndex (diffs : List Diff) (loc : Nat) : Nat := xiLoop diffs loc 0 0 0 0

/-! ### `patch_addContext` and `patch_make`
(`dmp_algorithms_patch.h`) -/

/-- The pattern-growing loop of `patch_addContext`: expand the pattern
until it is unique in `text` or as long as `Match_MaxBits` minus two
margins allows.  `padding` is a C++ `int`. -/
def pacLoop : Nat → Settings → Str → Patch → Str → ℤ → Option (Str × ℤ)
  | 0, _, _, _, _, _ => none
  | fuel + 1, st, text, patch, pat, padding =>
    if strFind text pat 0 ≠ strRFind text pat text.length ∧
        pat.length < toSizeT (st.Match_MaxBits - st.Patch_Margin - st.Patch_Margin) then
      let padding' := padding + st.Patch_Margin
      let s := toSizeT (max 0 ((patch.start2 : ℤ) - padding'))
      let e := toSizeT (min (text.length : ℤ)
        ((patch.start2 : ℤ) + (patch.length1 : ℤ) + padding'))
      pacLoop fuel st text patch (substr text s (e - s)) padding'
    else some (pat, padding)

/-- `patch_addContext` of `dmp_algorithms_patch.h`.  The final
`size_t` updates of `start1`/`start2` wrap exactly as in the source. -/
def patch_addContext (fuel : Nat) (st : Settings) (patch : Patch) (text : Str) :
    Option Patch :=
  if text.length = 0 then some patch
  else
    match pacLoop fuel st text patch (substr text patch.start2 patch.length1) 0 with
    | none => none
    | some (_, padding0) =>
      let padding := padding0 + st.Patch_Margin
      let s1 := toSizeT (max 0 ((patch.start2 : ℤ) - padding))
      let pfx := substr text s1 (patch.start2 - s1)
      let s2 := patch.start2 + patch.length1
      let sfx := substr text s2
        (toSizeT (min (text.length : ℤ)
          ((patch.start2 : ℤ) + (patch.length1 : ℤ) + padding)) - s2)
      let diffs1 :=
        if pfx.length ≠ 0 then pushFront patch.diffs ⟨Operation.EQUAL, pfx⟩ else patch.diffs
      let diffs2 := if sfx.length ≠ 0 then diffs1 ++ [⟨Operation.EQUAL, sfx⟩] else diffs1
      some ⟨diffs2, toSizeT ((patch.start1 : ℤ) - pfx.length),
        toSizeT ((patch.start2 : ℤ) - pfx.length),
        patch.length1 + pfx.length + sfx.length, patch.length2 + pfx.length + sfx.length⟩

/-- The length-scan loop at the top of each `patch_make` outer iteration:
project the length of the next postpatch text.  `pne` is the constant
`patch.diffs.size() != 0` of the scan; a big equality then breaks the
scan. -/
def pmLen (st : Settings) : List Diff → Bool → Nat → Nat
  | [], _, len => len
  | d :: rest, pne, len =>
    match d.operation with
    | Operation.INSERT => pmLen st rest pne (len + d.text.length)
    | Operation.DELETE => pmLen st rest pne (len - min len d.text.length)
    | Operation.EQUAL =>
      if d.text.length ≥ toSizeT (2 * st.Patch_Margin) ∧ pne then len
      else pmLen st rest pne len

/-- The inner application loop of `patch_make` (`while (index < n && len >
0)`).  The postpatch buffer (`createNext` plus `str_copy`/`str_insert`/
`str_remove`; pool allocation always succeeds) is modelled as the string
`postpatch`; `char_count1`/`char_count2` are C++ `int`s, cast to `size_t`
where the source does so.  Returns the updated
`(index, patch, cc1, cc2, prepatch, postpatch, patches)`. -/
def pmInner : Nat → Settings → List Diff → Nat → Nat → Patch → ℤ → ℤ → Str → Str →
    Nat → List Patch → Option (Nat × Patch × ℤ × ℤ × Str × Str × List Patch)
  | 0, _, _, _, _, _, _, _, _, _, _, _ => none
  | fuel + 1, st, diffs, n, index, patch, cc1, cc2, prepatch, postpatch, len, patches =>
    if index < n ∧ len > 0 then
      let aDiff := diffs.getD index dDiff
      let patch0 :=
        if patch.diffs.length = 0 ∧ aDiff.operation ≠ Operation.EQUAL then
          ⟨patch.diffs, toSizeT cc1, toSizeT cc2, patch.length1, patch.length2⟩
        else patch
      match aDiff.operation with
      | Operation.INSERT =>
        let patch1 : Patch := ⟨patch0.diffs ++ [aDiff], patch0.start1, patch0.start2,
          patch0.length1, patch0.length2 + aDiff.text.length⟩
        pmInner fuel st diffs n (index + 1) patch1 cc1 (cc2 + aDiff.text.length) prepatch
          (splice postpatch (toSizeT cc2) 0 aDiff.text) len patches
      | Operation.DELETE =>
        let patch1 : Patch := ⟨patch0.diffs ++ [aDiff], patch0.start1, patch0.start2,
          patch0.length1 + aDiff.text.length, patch0.length2⟩
        pmInner fuel st diffs n (index + 1) patch1 (cc1 + aDiff.text.length) cc2 prepatch
          (splice postpatch (toSizeT cc2) aDiff.text.length []) len patches
      | Operation.EQUAL =>
        let patch1 : Patch :=
          if aDiff.text.length ≤ toSizeT (2 * st.Patch_Margin) ∧ patch0.diffs.length ≠ 0 ∧
              aDiff ≠ diffs.getD (n - 1) dDiff then
            ⟨patch0.diffs ++ [aDiff], patch0.start1, patch0.start2,
              patch0.length1 + aDiff.text.length, patch0.length2 + aDiff.text.length⟩
          else patch0
        if aDiff.text.length ≥ toSizeT (2 * st.Patch_Margin) ∧ patch1.diffs.length ≠ 0 then
          match patch_addContext fuel st patch1 prepatch with
          | none => none
          | some patchC =>
            pmInner fuel st diffs n (index + 1) dPatch (cc2 + aDiff.text.length)
              (cc2 + aDiff.text.length) postpatch postpatch 0 (patches ++ [patchC])
        else
          pmInner fuel st diffs n (index + 1) patch1 (cc1 + aDiff.text.length)
            (cc2 + aDiff.text.length) prepatch postpatch len patches
    else some (index, patch, cc1, cc2, prepatch, postpatch, patches)

/-- The outer loop of `patch_make` (`while (index < n)`): recompute the
projected length, copy the prepatch text into a fresh buffer and run the
inner loop.  The inner loop advances `index` at most `n` times, so its
`n + 2` fuel never runs out. -/
def pmOuter : Nat → Settings → List Diff → Nat → Nat → Patch → ℤ → ℤ → Str →
    List Patch → Option (List Patch × Patch × Str)
  | 0, _, _, _, _, _, _, _, _, _ => none
  | fuel + 1, st, diffs, n, index, patch, cc1, cc2, prepatch, patches =>
    if index < n then
      let len := pmLen st (diffs.drop index) (patch.diffs.length ≠ 0) prepatch.length
      match pmInner (n + 2) st diffs n index patch cc1 cc2 prepatch prepatch len patches with
      | none => none
      | some (index', patch', cc1', cc2', prepatch', _, patches') =>
        pmOuter fuel st diffs n index' patch' cc1' cc2' prepatch' patches'
    else some (patches, patch, prepatch)

/-- The `patch_make(text1, diffs)` overload of `dmp_algorithms_patch.h`. -/
def patch_make4 (fuel : Nat) (st : Settings) (text1 : Str) (diffs : List Diff) :
    Option (List Patch) :=
  if diffs.length = 0 then some []
  else
    match pmOuter fuel st diffs diffs.length 0 dPatch 0 0 text1 [] with
    | none => none
    | some (patches, patch, prepatch) =>
      if patch.diffs.length ≠ 0 then
        match patch_addContext fuel st patch prepatch with
        | none => none
        | some patchC => some (patches ++ [patchC])
      else some patches

/-- The `patch_make(text1, text2)` overload: `diff_main` with `checklines
= true`, the two cleanups when more than two diffs resulted, then the
patch construction. -/
def patch_make (fuel : Nat) (o : Nat → Bool) (st : Settings) (text1 text2 : Str)
    (k : Nat) : Option (List Patch × Nat) :=
  match diff_main fuel o st text1 text2 true k with
  | none => none
  | some (diffs0, k') =>
    match
      (if diffs0.length > 2 then
        match diff_cleanupSemantic fuel diffs0 with
        | none => none
        | some d1 => diff_cleanupEfficiency fuel st d1
      else some diffs0) with
    | none => none
    | some diffs1 =>
      match patch_make4 fuel st text1 diffs1 with
      | none => none
      | some patches => some (patches, k')

/-! ### `patch_addPadding`, `patch_splitMax` and `patch_apply`
(`dmp_algorithms_patch.h`) -/

/-- `patch_addPadding`: the `\x01\x02...` null padding, bumping every
patch and growing or adding the edge equalities of the first and last
patch.  Accessing `patches[0]`/`patches.back()` on an empty list is
undefined behaviour in C++ (the only caller guards against it); the
embedding returns the list unchanged there.  Returns the padding string
and the updated patches. -/
def patch_addPadding (st : Settings) (patches : List Patch) : Str × List Patch :=
  let paddingLength := toSizeT st.Patch_Margin
  let nullPadding : Str := (List.range paddingLength).map (fun x => x + 1)
  let ps1 := patches.map (fun p =>
    (⟨p.diffs, p.start1 + paddingLength, p.start2 + paddingLength, p.length1, p.length2⟩ :
      Patch))
  let ps2 :=
    match ps1 with
    | [] => ps1
    | p0 :: rest =>
      if p0.diffs.length = 0 ∨ (p0.diffs.headD dDiff).operation ≠ Operation.EQUAL then
        (⟨pushFront p0.diffs ⟨Operation.EQUAL, nullPadding⟩, p0.start1 - paddingLength,
          p0.start2 - paddingLength, p0.length1 + paddingLength,
          p0.length2 + paddingLength⟩ : Patch) :: rest
      else if paddingLength > (p0.diffs.headD dDiff).text.length then
        let firstText := (p0.diffs.headD dDiff).text
        let extra := paddingLength - firstText.length
        (⟨(⟨Operation.EQUAL, substrFrom nullPadding firstText.length ++ firstText⟩ : Diff) ::
            p0.diffs.tail, p0.start1 - extra, p0.start2 - extra,
          p0.length1 + extra, p0.length2 + extra⟩ : Patch) :: rest
      else ps1
  let ps3 :=
    match ps2.getLast? with
    | none => ps2
    | some pl =>
      if pl.diffs.length = 0 ∨ (pl.diffs.getLastD dDiff).operation ≠ Operation.EQUAL then
        ps2.dropLast ++ [(⟨pl.diffs ++ [⟨Operation.EQUAL, nullPadding⟩], pl.start1, pl.start2,
          pl.length1 + paddingLength, pl.length2 + paddingLength⟩ : Patch)]
      else if paddingLength > (pl.diffs.getLastD dDiff).text.length then
        let lastText := (pl.diffs.getLastD dDiff).text
        let extra := paddingLength - lastText.length
        ps2.dropLast ++ [(⟨pl.diffs.dropLast ++
            [⟨Operation.EQUAL, lastText ++ substr nullPadding 0 extra⟩],
          pl.start1, pl.start2, pl.length1 + extra, pl.length2 + extra⟩ : Patch)]
      else ps2
  (nullPadding, ps3)

/-- The chunk-building innermost loop of `patch_splitMax` (`while (bpi <
bps && patch.length1 < patch_size - Patch_Margin)`).  The bigpatch's diff
list is trimmed in place when only part of an entry is taken.  Returns
`(bigdiffs, bpi, patch, start1, start2, empty)`. -/
def psmChunk : Nat → Settings → List Diff → Nat → Nat → Patch → ℤ → ℤ → Bool →
    Option (List Diff × Nat × Patch × ℤ × ℤ × Bool)
  | 0, _, _, _, _, _, _, _, _ => none
  | fuel + 1, st, bigdiffs, bps, bpi, patch, start1, start2, empty =>
    if bpi < bps ∧ patch.length1 < toSizeT (st.Match_MaxBits - st.Patch_Margin) then
      let diff_type := (bigdiffs.getD bpi dDiff).operation
      let dtext := (bigdiffs.getD bpi dDiff).text
      if diff_type = Operation.INSERT then
        psmChunk fuel st bigdiffs bps (bpi + 1)
          ⟨patch.diffs ++ [bigdiffs.getD bpi dDiff], patch.start1, patch.start2,
            patch.length1, patch.length2 + dtext.length⟩
          start1 (start2 + dtext.length) false
      else if diff_type = Operation.DELETE ∧ patch.diffs.length = 1 ∧
          (patch.diffs.headD dDiff).operation = Operation.EQUAL ∧
          dtext.length > toSizeT (2 * st.Match_MaxBits) then
        psmChunk fuel st bigdiffs bps (bpi + 1)
          ⟨patch.diffs ++ [⟨diff_type, dtext⟩], patch.start1, patch.start2,
            patch.length1 + dtext.length, patch.length2⟩
          (start1 + dtext.length) start2 false
      else
        let dtext' := substr dtext 0
          (toSizeT (min (dtext.length : ℤ)
            (st.Match_MaxBits - (patch.length1 : ℤ) - st.Patch_Margin)))
        let patch' : Patch := ⟨patch.diffs ++ [⟨diff_type, dtext'⟩], patch.start1,
          patch.start2, patch.length1 + dtext'.length,
          if diff_type = Operation.EQUAL then patch.length2 + dtext'.length
          else patch.length2⟩
        let start1' := start1 + dtext'.length
        let start2' := if diff_type = Operation.EQUAL then start2 + dtext'.length else start2
        let empty' := if diff_type = Operation.EQUAL then empty else false
        if dtext' = (bigdiffs.getD bpi dDiff).text then
          psmChunk fuel st bigdiffs bps (bpi + 1) patch' start1' start2' empty'
        else
          psmChunk fuel st
            (bigdiffs.set bpi ⟨diff_type, substrFrom (bigdiffs.getD bpi dDiff).text
              dtext'.length⟩) bps bpi patch' start1' start2' empty'
    else some (bigdiffs, bpi, patch, start1, start2, empty)

/-- The per-bigpatch loop of `patch_splitMax` (`while (bpi < bps)`): build
one smaller patch, attach its contexts, and splice it in after `++x` when
it is not empty.  Returns the updated `(patches, x)`. -/
def psmInner : Nat → Settings → List Diff → Nat → Nat → ℤ → ℤ → Str → List Patch → ℤ →
    Option (List Patch × ℤ)
  | 0, _, _, _, _, _, _, _, _, _ => none
  | fuel + 1, st, bigdiffs, bps, bpi, start1, start2, precontext, patches, x =>
    if bpi < bps then
      let patch0 : Patch :=
        if precontext.length ≠ 0 then
          ⟨[⟨Operation.EQUAL, precontext⟩], toSizeT ((start1 : ℤ) - precontext.length),
            toSizeT ((start2 : ℤ) - precontext.length), precontext.length,
            precontext.length⟩
        else
          ⟨[], toSizeT ((start1 : ℤ) - precontext.length),
            toSizeT ((start2 : ℤ) - precontext.length), 0, 0⟩
      match psmChunk (bps + 2) st bigdiffs bps bpi patch0 start1 start2 true with
      | none => none
      | some (bigdiffs', bpi', patch1, start1', start2', empty') =>
        let pre0 := diff_text2 patch1.diffs
        let precontext' := substrFrom pre0
          (toSizeT (max 0 ((pre0.length : ℤ) - st.Patch_Margin)))
        let dtext1 := diff_text1From bigdiffs' bpi'
        let postcontext :=
          if dtext1.length > toSizeT st.Patch_Margin then
            substr dtext1 0 (toSizeT st.Patch_Margin)
          else dtext1
        let patch2 : Patch :=
          if postcontext.length ≠ 0 then
            ⟨(if patch1.diffs.length ≠ 0 ∧
                  (patch1.diffs.getLastD dDiff).operation = Operation.EQUAL then
                patch1.diffs.dropLast ++
                  [⟨Operation.EQUAL, (patch1.diffs.getLastD dDiff).text ++ postcontext⟩]
              else patch1.diffs ++ [⟨Operation.EQUAL, postcontext⟩]),
              patch1.start1, patch1.start2, patch1.length1 + postcontext.length,
              patch1.length2 + postcontext.length⟩
          else patch1
        let s :=
          if ¬empty' then (splice patches (toSizeT (x + 1)) 0 [patch2], x + 1)
          else (patches, x)
        match s with
        | (patches', x') =>
          psmInner fuel st bigdiffs' bps bpi' start1' start2' precontext' patches' x'
    else some (patches, x)

/-- The outer loop of `patch_splitMax` over the patch list (`for (int x =
0; ...)`), with the `splice(x--, 1)` removal of each oversize patch. -/
def psmOuter : Nat → Settings → List Patch → ℤ → Option (List Patch)
  | 0, _, _, _ => none
  | fuel + 1, st, patches, x =>
    if x < (patches.length : ℤ) then
      if (patches.getD (toSizeT x) dPatch).length1 ≤ toSizeT st.Match_MaxBits then
        psmOuter fuel st patches (x + 1)
      else
        let bigpatch := patches.getD (toSizeT x) dPatch
        let patches1 := splice patches (toSizeT x) 1 []
        let x1 := x - 1
        match psmInner (fuel + 1) st bigpatch.diffs bigpatch.diffs.length 0
            (bigpatch.start1 : ℤ) (bigpatch.start2 : ℤ) [] patches1 x1 with
        | none => none
        | some (patches2, x2) => psmOuter fuel st patches2 (x2 + 1)
    else some patches

/-- `patch_splitMax` of `dmp_algorithms_patch.h`. -/
def patch_splitMax (fuel : Nat) (st : Settings) (patches : List Patch) :
    Option (List Patch) :=
  psmOuter fuel st patches 0

/-- The edit-application loop of `patch_apply`'s imperfect-match branch
(the second `for (auto& aDiff : aPatch.diffs)` loop; the first such loop
only projects the buffer length for the always-successful allocation).
`ds` is the framework diff, `index1` the cursor in the patch's `text1`. -/
def paEdits (ds : List Diff) (start_loc : Nat) :
    List Diff → Str → Nat → Str
  | [], text, _ => text
  | aDiff :: rest, text, index1 =>
    if aDiff.operation ≠ Operation.EQUAL then
      let index2 := diff_xIndex ds index1
      if aDiff.operation = Operation.INSERT then
        paEdits ds start_loc rest (splice text (start_loc + index2) 0 aDiff.text)
          (index1 + aDiff.text.length)
      else
        paEdits ds start_loc rest
          (splice text (start_loc + index2)
            (diff_xIndex ds (index1 + aDiff.text.length) - index2) [])
          index1
    else paEdits ds start_loc rest text (index1 + aDiff.text.length)

/-- One patch of the `patch_apply` loop, after the match locations have
been determined: on failure adjust `delta`, otherwise rebuild the text
either by direct replacement (perfect match) or through a framework diff
(with the `Patch_DeleteThreshold` quality gate; float arithmetic is
modelled exactly over the rationals).  Returns
`(text, flag, delta, counter)`. -/
def paApply1 (fuel : Nat) (o : Nat → Bool) (st : Settings) (aPatch : Patch)
    (text : Str) (start_loc end_loc : Option Nat) (expected_loc : Nat) (k : Nat) :
    Option (Str × Bool × ℤ × Nat) :=
  let text1p := diff_text1 aPatch.diffs
  match start_loc with
  | none => some (text, false, -(((aPatch.length2 : ℤ)) - (aPatch.length1 : ℤ)), k)
  | some sl =>
    let delta' : ℤ := (sl : ℤ) - (expected_loc : ℤ)
    let text2 :=
      match end_loc with
      | none => substr text sl (min (sl + text1p.length) text.length - sl)
      | some el => substr text sl (min (el + toSizeT st.Match_MaxBits) text.length - sl)
    if text1p = text2 then
      some (substr text 0 sl ++ diff_text2 aPatch.diffs ++
        substrFrom text (sl + text1p.length), true, delta', k)
    else
      match diff_main fuel o st text1p text2 false k with
      | none => none
      | some (ds, k1) =>
        if text1p.length > toSizeT st.Match_MaxBits ∧
            (diff_levenshtein ds : ℚ) / (text1p.length : ℚ) > st.Patch_DeleteThreshold then
          some (text, false, delta', k1)
        else
          match diff_cleanupSemanticLossless fuel ds with
          | none => none
          | some ds1 => some (paEdits ds1 sl aPatch.diffs text 0, true, delta', k1)

/-- The match-location block at the top of each `patch_apply` iteration:
the oversize-pattern double `match_main` search (with the
start/end-consistency check) or the plain search.  Returns
`(start_loc, end_loc)`; a dropped patch has `start_loc = none`. -/
def paLocs (fuel : Nat) (st : Settings) (aPatch : Patch) (text : Str)
    (expected_loc : Nat) : Option (Option Nat × Option Nat) :=
  let text1p := diff_text1 aPatch.diffs
  let mm := toSizeT st.Match_MaxBits
  if text1p.length > mm then
    match match_main fuel st text (substr text1p 0 mm) expected_loc with
    | none => none
    | some none => some (none, none)
    | some (some sl) =>
      match match_main fuel st text (substrFrom text1p (text1p.length - mm))
          (expected_loc + text1p.length - mm) with
      | none => none
      | some none => some (none, none)
      | some (some el) =>
        if sl ≥ el then some (none, some el) else some (some sl, some el)
  else
    match match_main fuel st text text1p expected_loc with
    | none => none
    | some r => some (r, none)

/-- The main loop of `patch_apply` over the (already padded and split)
patches, continued: one iteration per patch, one result flag per patch. -/
def paLoop (fuel : Nat) (o : Nat → Bool) (st : Settings) :
    List Patch → Str → ℤ → List Bool → Nat → Option (Str × List Bool × Nat)
  | [], text, _, results, k => some (text, results, k)
  | aPatch :: rest, text, delta, results, k =>
    let expected_loc := toSizeT (max 0 ((aPatch.start2 : ℤ) + delta))
    match paLocs fuel st aPatch text expected_loc with
    | none => none
    | some (start_loc, end_loc) =>
      match paApply1 fuel o st aPatch text start_loc end_loc expected_loc k with
      | none => none
      | some (text', flag, ddelta, k') =>
        paLoop fuel o st rest text'
          (if flag then ddelta else delta + ddelta) (results ++ [flag]) k'

/-- `patch_apply` of `dmp_algorithms_patch.h`: deep copy, null padding,
`patch_splitMax`, the application loop, and the padding strip.  Returns
the new text and the result flags, or `none` on fuel exhaustion. -/
def patch_apply (fuel : Nat) (o : Nat → Bool) (st : Settings) (patches : List Patch)
    (text0 : Str) (k : Nat) : Option ((Str × List Bool) × Nat) :=
  if patches.length = 0 then some ((text0, []), k)
  else
    let pr := patch_addPadding st patches
    match pr with
    | (nullPadding, patches1) =>
      let text1 := nullPadding ++ text0 ++ nullPadding
      match patch_splitMax fuel st patches1 with
      | none => none
      | some patches2 =>
        match paLoop fuel o st patches2 text1 0 [] k with
        | none => none
        | some (textF, results, k') =>
          some ((substr textF nullPadding.length (textF.length - 2 * nullPadding.length),
            results), k')

/-! ### Theorems -/

section CommonLemmas

/-- The common prefix length is bounded by both lengths. -/
theorem commonPrefix_le_left : ∀ s t : Str, diff_commonPrefix s t ≤ s.length := by
  intro s
  induction s with
  | nil => intro t; cases t <;> simp [diff_commonPrefix]
  | cons a s ih =>
    intro t
    cases t with
    | nil => simp [diff_commonPrefix]
    | cons b t =>
      by_cases h : a = b <;> simp [diff_commonPrefix, h]
      exact ih t

theorem commonPrefix_comm : ∀ s t : Str, diff_commonPrefix s t = diff_commonPrefix t s := by
  intro s
  induction s with
  | nil => intro t; cases t <;> simp [diff_commonPrefix]
  | cons a s ih =>
    intro t
    cases t with
    | nil => simp [diff_commonPrefix]
    | cons b t =>
      by_cases h : a = b
      · simp [diff_commonPrefix, h, ih t]
      · rw [diff_commonPrefix, diff_commonPrefix, if_neg h, if_neg (fun hh => h hh.symm)]

theorem commonPrefix_le_right (s t : Str) : diff_commonPrefix s t ≤ t.length := by
  rw [commonPrefix_comm]; exact commonPrefix_le_left t s

/-- The prefixes of the common length agree. -/
theorem commonPrefix_take : ∀ s t : Str,
    s.take (diff_commonPrefix s t) = t.take (diff_commonPrefix s t) := by
  intro s
  induction s with
  | nil => intro t; cases t <;> simp [diff_commonPrefix]
  | cons a s ih =>
    intro t
    cases t with
    | nil => simp [diff_commonPrefix]
    | cons b t =>
      by_cases h : a = b <;> simp [diff_commonPrefix, h]
      exact ih t

/-- The suffixes of the common suffix length agree. -/
theorem commonSuffix_drop (s t : Str) :
    s.drop (s.length - diff_commonSuffix s t) = t.drop (t.length - diff_commonSuffix s t) := by
  unfold diff_commonSuffix
  have h := commonPrefix_take s.reverse t.reverse
  have h1 := commonPrefix_le_left s.reverse t.reverse
  have h2 := commonPrefix_le_right s.reverse t.reverse
  rw [List.length_reverse] at h1 h2
  set n := diff_commonPrefix s.reverse t.reverse with hn
  have hs : (s.reverse.take n).reverse = s.drop (s.length - n) := by
    rw [List.reverse_take]; simp
  have ht : (t.reverse.take n).reverse = t.drop (t.length - n) := by
    rw [List.reverse_take]; simp
  rw [← hs, ← ht, h]

theorem commonSuffix_le_left (s t : Str) : diff_commonSuffix s t ≤ s.length := by
  unfold diff_commonSuffix
  simpa using commonPrefix_le_left s.reverse t.reverse

theorem commonSuffix_le_right (s t : Str) : diff_commonSuffix s t ≤ t.length := by
  unfold diff_commonSuffix
  simpa using commonPrefix_le_right s.reverse t.reverse

end CommonLemmas

/-- Cast of the branchy `size_t` proximity computation to the rational
absolute difference. -/
theorem proximity_cast (x loc : Nat) :
    ((if x ≤ loc then loc - x else x - loc : Nat) : ℚ) = |(x : ℚ) - (loc : ℚ)| := by
  by_cases h : x ≤ loc
  · rw [if_pos h, abs_sub_comm, abs_of_nonneg (sub_nonneg.mpr (by exact_mod_cast h))]
    push_cast [h]
    ring
  · rw [if_neg h, abs_of_nonneg (sub_nonneg.mpr (by exact_mod_cast le_of_not_le h))]
    push_cast [le_of_not_le h]
    ring

/-- C7, counterexample: with `match_distance = 0`, one error and `x = loc`,
the score computed by `match_bitapScore` is `e/|pattern| = 1`, not `0` as the
claim states. -/
theorem c7_counterexample :
    match_bitapScore { defaultSettings with Match_Distance := 0 } 1 5 5 (str "a") = 1 ∧
    (1 : ℚ) ≠ 0 := by
  refine ⟨?_, by norm_num⟩
  have ha : str "a" = [97] := rfl
  rw [match_bitapScore, ha]
  norm_num

/-- C7, amended: for a non-empty pattern, `match_bitapScore` equals
`e/|pattern| + |x-loc|/match_distance` when `match_distance ≠ 0`, and when
`match_distance = 0` it equals `e/|pattern|` if `x = loc` (not `0` unless
`e = 0`) and `1` otherwise. -/
theorem c7_theorem (st : Settings) (e x loc : Nat) (pattern : Str) (_hp : pattern ≠ []) :
    (st.Match_Distance = 0 →
      match_bitapScore st e x loc pattern =
        (if x = loc then (e : ℚ) / (pattern.length : ℚ) else 1)) ∧
    (st.Match_Distance ≠ 0 →
      match_bitapScore st e x loc pattern =
        (e : ℚ) / (pattern.length : ℚ) + |(x : ℚ) - (loc : ℚ)| / (st.Match_Distance : ℚ)) := by
  constructor
  · intro hmd
    rw [match_bitapScore, if_pos hmd]
    by_cases hx : x = loc
    · subst hx
      simp
    · have hprox : (if x ≤ loc then loc - x else x - loc) ≠ 0 := by
        split <;> omega
      rw [if_neg hprox, if_neg hx]
  · intro hmd
    rw [match_bitapScore, if_neg hmd, ← proximity_cast]

/-- C7, witness for the amended theorem at a concrete input. -/
theorem c7_witness :
    match_bitapScore defaultSettings 1 3 5 (str "ab") =
      (1 : ℚ) / ((str "ab").length : ℚ) +
        |(3 : ℚ) - (5 : ℚ)| / ((defaultSettings.Match_Distance : ℤ) : ℚ) := by
  exact (c7_theorem defaultSettings 1 3 5 (str "ab") (by decide)).2 (by decide)

/-- C8, counterexample: `match_main` on an empty text with an empty pattern
returns location `0`, not NotFound, falsifying the claim that an empty text
always yields NotFound. -/
theorem c8_counterexample :
    match_main 0 defaultSettings [] [] 3 = some (some 0) ∧
    (some (some 0) : Option (Option Nat)) ≠ some none := by
  constructor
  · decide
  · simp

/-- C8, amended: for every non-empty pattern and every location, `match_main`
on an empty text returns NotFound (when the pattern is also empty it instead
returns `0`, the clamped location); and for every text and location,
`match_main` with an empty pattern returns `loc` clamped to `[0, |text|]`. -/
theorem c8_theorem :
    (∀ (fuel : Nat) (st : Settings) (pattern : Str) (loc : Nat), pattern ≠ [] →
      match_main fuel st [] pattern loc = some none) ∧
    (∀ (fuel : Nat) (st : Settings) (text : Str) (loc : Nat),
      match_main fuel st text [] loc = some (some (min loc text.length))) := by
  constructor
  · intro fuel st pattern loc hp
    rw [match_main, if_neg (fun h => hp h.symm)]
    simp
  · intro fuel st text loc
    by_cases ht : text = []
    · subst ht
      rw [match_main]
      simp
    · have hlen : text.length ≠ 0 := fun h => ht (List.eq_nil_of_length_eq_zero h)
      have hcond : max 0 (min loc text.length) + ([] : Str).length ≤ text.length ∧
          substr text (max 0 (min loc text.length)) ([] : Str).length = ([] : Str) := by
        constructor
        · simp only [List.length_nil, Nat.add_zero]
          omega
        · simp [substr]
      rw [match_main, if_neg ht, if_neg hlen, if_pos hcond]
      simp

/-- C8, witness for the amended theorem at concrete inputs. -/
theorem c8_witness :
    match_main 7 defaultSettings [] (str "a") 2 = some none ∧
    match_main 7 defaultSettings (str "xy") [] 9 = some (some (min 9 (str "xy").length)) := by
  exact ⟨c8_theorem.1 7 defaultSettings (str "a") 2 (by decide),
    c8_theorem.2 7 defaultSettings (str "xy") 9⟩

/-- C10: a `=` or `-` count token reached when the cursor has already
consumed all of `text1` makes `diff_fromDelta` fail, whatever the count and
whatever follows; in particular `diff_fromDelta("", "=0")` fails. -/
theorem c10_theorem :
    (∀ (text1 tok : Str) (rest : List Str) (pointer : Nat) (acc : List Diff),
      tok ≠ [] → (tok.getD 0 0 = 45 ∨ tok.getD 0 0 = 61) → pointer ≥ text1.length →
      fromDeltaLoop text1 (tok :: rest) pointer acc = none) ∧
    diff_fromDelta (str "") (str "=0") = none := by
  constructor
  · intro text1 tok rest pointer acc htok hop hptr
    have h43 : tok.getD 0 0 ≠ 43 := fun hc => by
      rw [hc] at hop
      rcases hop with h | h <;> exact absurd h (by decide)
    rw [fromDeltaLoop, if_neg (by simpa using htok), if_neg h43, if_pos hop]
    split
    · rfl
    · rename_i n _
      by_cases hn : n < 0
      · rw [if_pos hn]
      · rw [if_neg hn, if_pos hptr]
  · decide

/-- C10, witness: the universal part applied to the concrete `"=0"` token
with an exhausted cursor. -/
theorem c10_witness :
    fromDeltaLoop [] [str "=0"] 0 [] = none :=
  c10_theorem.1 [] (str "=0") [] 0 [] (by decide) (by decide) (by decide)

section DeltaRoundTrip

set_option maxRecDepth 8000

/-- Facts about the safe set decided once over all bytes below 0x80. -/
theorem safe_char_facts : ∀ c < 128, c ∈ safeList → c ≠ 37 ∧ c ≠ 9 := by decide

/-- One escaped or substituted unit percent-decodes back to its character
(decided over all bytes below 0x80). -/
theorem unit_decode : ∀ c < 128, pctPhase1 (unitAfterPlus c) = some [c] := by decide

/-- Characters of a unit are never `+` unless the character itself is `+`:
a decided fact used to push `plusRepl` through encoder output. -/
theorem unit_chars : ∀ c < 128, ∀ b ∈ encodeURIbyte c, b ≠ 43 ∨ c = 43 := by decide

theorem encodeURIbyte_no_tab : ∀ c < 128, ∀ b ∈ encodeURIbyte c, b ≠ 9 := by decide

theorem utf8Bytes_small {c : Nat} (h : c < 128) : utf8Bytes c = [c] := by
  rw [utf8Bytes, if_pos (by omega)]
  simp
  omega

/-- Unfolding of `pctPhase1` on a full escape. -/
theorem pctPhase1_escape (d1 d2 : Chr) (rest2 : Str) :
    pctPhase1 (37 :: d1 :: d2 :: rest2) = (do
      let h1 ← hexVal d1
      let h2 ← hexVal d2
      let t ← pctPhase1 rest2
      pure (((h1 <<< 4) + h2) :: t)) := rfl

/-- Unfolding of `pctPhase1` on a non-escape character. -/
theorem pctPhase1_cons_ne (c : Chr) (rest : Str) (hc : ¬c = 37) :
    pctPhase1 (c :: rest) = (pctPhase1 rest).map (c :: ·) := by
  rw [pctPhase1.eq_def]
  split
  · rename_i heq
    exact List.noConfusion heq
  · rename_i c2 rest2 heq
    injection heq with e1 e2
    subst e1
    subst e2
    rw [if_neg hc]

/-- A fully decodable prefix lets `pctPhase1` split over append. -/
theorem pctPhase1_append : ∀ (u : Str), ∀ (du : Str), pctPhase1 u = some du →
    ∀ rest, pctPhase1 (u ++ rest) = (pctPhase1 rest).map (du ++ ·) := by
  intro u
  induction u using pctPhase1.induct with
  | case1 =>
    intro du h rest
    rw [pctPhase1] at h
    cases h
    simp only [List.nil_append]
    cases pctPhase1 rest <;> rfl
  | case2 d1 d2 rest2 ih =>
    intro du h rest
    rw [pctPhase1_escape] at h
    cases hh1 : hexVal d1 with
    | none => simp [hh1] at h
    | some h1 =>
    cases hh2 : hexVal d2 with
    | none => simp [hh1, hh2] at h
    | some h2 =>
    cases hp : pctPhase1 rest2 with
    | none => simp [hh1, hh2, hp] at h
    | some t =>
      simp only [hh1, hh2, hp] at h
      simp at h
      rw [List.cons_append, List.cons_append, List.cons_append, pctPhase1_escape]
      simp only [hh1, hh2]
      rw [ih t hp rest]
      cases pctPhase1 rest <;> simp [← h]
  | case3 rest2 hshape =>
    intro du h rest
    rcases rest2 with _ | ⟨d1, _ | ⟨d2, r⟩⟩
    · rw [show pctPhase1 [37] = none from rfl] at h
      exact Option.noConfusion h
    · rw [show pctPhase1 [37, d1] = none from rfl] at h
      exact Option.noConfusion h
    · exact absurd rfl (fun hh => hshape d1 d2 r hh)
  | case4 c rest2 hc ih =>
    intro du h rest
    rw [pctPhase1_cons_ne c rest2 hc] at h
    rw [List.cons_append, pctPhase1_cons_ne c (rest2 ++ rest) hc]
    cases hp : pctPhase1 rest2 with
    | none => rw [hp] at h; simp at h
    | some t =>
      rw [hp] at h
      simp only [Option.map_some'] at h
      injection h with h
      subst h
      rw [ih t hp rest]
      cases pctPhase1 rest <;> simp

/-- Decoding the concatenation of per-character units recovers the input. -/
theorem pctPhase1_units (t : Str) (h : ∀ c ∈ t, c < 128) :
    pctPhase1 (t.flatMap unitAfterPlus) = some t := by
  induction t with
  | nil => rfl
  | cons c t ih =>
    have hc : c < 128 := h c (by simp)
    rw [List.flatMap_cons,
      pctPhase1_append (unitAfterPlus c) [c] (unit_decode c hc) (t.flatMap unitAfterPlus),
      ih (fun x hx => h x (by simp [hx]))]
    rfl

/-- The UTF-8 normalisation pass is the identity on sub-0x80 content. -/
theorem utf8Normalize_small (l : List Nat) (h : ∀ c ∈ l, c < 128) : utf8Normalize l = l := by
  rw [utf8Normalize]
  have : ∀ fuel l, (∀ c ∈ l, c < 128) → l.length ≤ fuel → utf8NormLoop fuel l = l := by
    intro fuel
    induction fuel with
    | zero =>
      intro l hl hf
      rw [Nat.le_zero, List.length_eq_zero] at hf
      simp [hf, utf8NormLoop]
    | succ f ih =>
      intro l hl hf
      cases l with
      | nil => rfl
      | cons c rest =>
        have hc : c < 128 := hl c (by simp)
        have hu : utf8ToUtf32 0 (c :: rest) = (c, rest) := by
          rw [utf8ToUtf32.eq_def]
          simp only [Nat.mod_eq_of_lt (show c < 2 ^ 32 by omega)]
          rw [if_pos (by omega)]
        rw [utf8NormLoop, hu]
        show c :: utf8NormLoop f rest = c :: rest
        rw [ih rest (fun x hx => hl x (by simp [hx])) (by simpa using hf)]
  exact this l.length l h le_rfl

/-- The `+` substitution leaves `+`-free content alone. -/
theorem plusRepl_id (l : Str) (h : ∀ b ∈ l, b ≠ 43) : plusRepl l = l := by
  induction l with
  | nil => rfl
  | cons b l ih =>
    rw [plusRepl, List.flatMap_cons, if_neg (h b (by simp)), ← plusRepl,
      ih (fun x hx => h x (by simp [hx]))]
    rfl

/-- The `+` substitution turns encoder output into per-character units. -/
theorem plusRepl_encoded (t : Str) (hsm : ∀ c ∈ t, c < 128) :
    plusRepl (t.flatMap encodeURIbyte) = t.flatMap unitAfterPlus := by
  induction t with
  | nil => rfl
  | cons c t ih =>
    have hc : c < 128 := hsm c (by simp)
    have hrest := ih (fun x hx => hsm x (by simp [hx]))
    rw [List.flatMap_cons, List.flatMap_cons, plusRepl, List.flatMap_append, ← plusRepl, ← plusRepl,
      hrest]
    congr 1
    by_cases h43 : c = 43
    · subst h43
      rfl
    · have hnb : ∀ b ∈ encodeURIbyte c, b ≠ 43 := by
        intro b hb
        rcases unit_chars c hc b hb with h | h
        · exact h
        · exact absurd h h43
      rw [unitAfterPlus, if_neg h43]
      exact plusRepl_id (encodeURIbyte c) hnb

/-- Every safe character is below 0x80. -/
theorem safe_lt_128 : ∀ c ∈ safeList, c < 128 := by decide

/-- A safe byte is emitted unescaped. -/
theorem encodeURIbyte_safe (c : Chr) (h : c ∈ safeList) : encodeURIbyte c = [c] := by
  rw [encodeURIbyte, if_pos h]

/-- On all-safe content the `+` substitution produces exactly the
per-character units of the escaped form. -/
theorem plusRepl_safe (t : Str) (h : ∀ c ∈ t, c ∈ safeList) :
    plusRepl t = t.flatMap unitAfterPlus := by
  rw [plusRepl]
  refine List.flatMap_congr (fun c hc => ?_)
  by_cases h43 : c = 43
  · rw [if_pos h43, unitAfterPlus, if_pos h43]
  · rw [if_neg h43, unitAfterPlus, if_neg h43, encodeURIbyte_safe c (h c hc)]

/-- `encodeURI` is the identity when every character is safe. -/
theorem encodeURI_safe (t : Str) (h : ∀ c ∈ t, c < 128) (hs : ∀ c ∈ t, c ∈ safeList) :
    encodeURI t = t := by
  simp only [encodeURI]
  have hcond : (t.any fun c =>
      decide (0x80 ≤ c % 2 ^ 32) || !(decide ((c % 2 ^ 32) % 256 ∈ safeList))) = false := by
    rw [List.any_eq_false]
    intro c hc
    have hcl := h c hc
    have hm : c % 2 ^ 32 = c := Nat.mod_eq_of_lt (lt_of_lt_of_le hcl (by norm_num))
    rw [hm]
    have hm2 : c % 256 = c := Nat.mod_eq_of_lt (lt_of_lt_of_le hcl (by norm_num))
    rw [hm2]
    simp [hs c hc, Nat.not_le.mpr hcl]
  rw [hcond]
  simp

/-- `encodeURI` escapes every character bytewise as soon as one character is
unsafe (on sub-0x80 content, where UTF-8 encoding is the identity). -/
theorem encodeURI_escaping (t : Str) (h : ∀ c ∈ t, c < 128)
    (hu : ∃ c ∈ t, c ∉ safeList) : encodeURI t = t.flatMap encodeURIbyte := by
  simp only [encodeURI]
  have hcond : (t.any fun c =>
      decide (0x80 ≤ c % 2 ^ 32) || !(decide ((c % 2 ^ 32) % 256 ∈ safeList))) = true := by
    rw [List.any_eq_true]
    obtain ⟨c, hc, hcs⟩ := hu
    refine ⟨c, hc, ?_⟩
    have hcl := h c hc
    have hm : c % 2 ^ 32 = c := Nat.mod_eq_of_lt (lt_of_lt_of_le hcl (by norm_num))
    rw [hm]
    have hm2 : c % 256 = c := Nat.mod_eq_of_lt (lt_of_lt_of_le hcl (by norm_num))
    rw [hm2]
    simp [hcs]
  rw [hcond]
  simp only [if_pos rfl]
  refine List.flatMap_congr (fun c hc => ?_)
  rw [Nat.mod_eq_of_lt (lt_of_lt_of_le (h c hc) (by norm_num)), utf8Bytes_small (h c hc)]
  simp

/-- The output of `encodeURI` on sub-0x80 content never contains a tab. -/
theorem encodeURI_no_tab (t : Str) (h : ∀ c ∈ t, c < 128) : ∀ b ∈ encodeURI t, b ≠ 9 := by
  by_cases hs : ∀ c ∈ t, c ∈ safeList
  · rw [encodeURI_safe t h hs]
    exact fun b hb => (safe_char_facts b (h b hb) (hs b hb)).2
  · push_neg at hs
    rw [encodeURI_escaping t h hs]
    intro b hb
    rw [List.mem_flatMap] at hb
    obtain ⟨c, hc, hbc⟩ := hb
    exact encodeURIbyte_no_tab c (h c hc) b hbc

/-- `percent_decode` with `+` replacement inverts `encodeURI` on sub-0x80
content. -/
theorem percentDecodePlus_encodeURI (t : Str) (h : ∀ c ∈ t, c < 128) :
    percentDecodePlus (encodeURI t) = some t := by
  by_cases hs : ∀ c ∈ t, c ∈ safeList
  · rw [encodeURI_safe t h hs]
    simp only [percentDecodePlus]
    cases hw : t.any (fun c => c == 43 || c == 37 || !(decide (c < 0x80))) with
    | false => simp
    | true =>
      simp only [Bool.not_true, Bool.false_eq_true, if_false]
      rw [plusRepl_safe t hs, pctPhase1_units t h]
      simp [utf8Normalize_small t h]
  · push_neg at hs
    rw [encodeURI_escaping t h hs]
    have h37 : (37 : Nat) ∈ t.flatMap encodeURIbyte := by
      obtain ⟨c, hc, hcs⟩ := hs
      rw [List.mem_flatMap]
      exact ⟨c, hc, by rw [encodeURIbyte, if_neg hcs]; simp⟩
    have hw : ((t.flatMap encodeURIbyte).any
        (fun c => c == 43 || c == 37 || !(decide (c < 0x80)))) = true := by
      rw [List.any_eq_true]
      exact ⟨37, h37, by simp⟩
    simp only [percentDecodePlus, hw, Bool.not_true, Bool.false_eq_true, if_false]
    rw [plusRepl_encoded t h, pctPhase1_units t h]
    simp [utf8Normalize_small t h]

/-- Reinterpreting a small nonnegative value as `int` is the identity. -/
theorem toInt32_exact (z : ℤ) (h0 : 0 ≤ z) (h1 : z < 2 ^ 31) :
    toInt32 ((z % 2 ^ 64).toNat) = z := by
  rw [Int.emod_eq_of_lt h0 (by omega)]
  simp only [toInt32]
  have hm : z.toNat % 2 ^ 32 = z.toNat := Nat.mod_eq_of_lt (by omega)
  rw [hm, if_pos (by omega), Int.toNat_of_nonneg h0]

/-- One digit step of the `toIntegerInt` loop, for accumulators that keep the
running value in the `int` range. -/
theorem ti2_digit_step (c : Nat) (h1 : 48 ≤ c) (h2 : c ≤ 57) (res : ℤ) (h0 : 0 ≤ res)
    (hb : res * 10 + ((c : ℤ) - 48) ≤ 2147483647) (rest : Str) :
    toIntegerInt2 2147483647 (c :: rest) res =
      toIntegerInt2 2147483647 rest (res * 10 + ((c : ℤ) - 48)) := by
  have hv : ((((c : ℤ) - 48) % 256).toNat : ℤ) = (c : ℤ) - 48 := by
    rw [Int.emod_eq_of_lt (by omega) (by omega), Int.toNat_of_nonneg (by omega)]
  simp only [toIntegerInt2]
  rw [if_neg (by omega)]
  by_cases hres : res ≤ Int.tdiv (2147483647 - 9) 10
  · rw [if_pos hres, hv]
  · rw [if_neg hres]
    have hsave : Int.tdiv ((2147483647 : ℤ) - 9) 10 = 214748363 := by decide
    rw [hsave] at hres
    have hz0 : (0 : ℤ) ≤ res * 10 + ((((c : ℤ) - 48) % 256).toNat : ℤ) :=
      add_nonneg (mul_nonneg h0 (by norm_num)) (Int.natCast_nonneg _)
    have hz1 : res * 10 + ((((c : ℤ) - 48) % 256).toNat : ℤ) < 2 ^ 31 := by
      rw [hv]; omega
    rw [toInt32_exact _ hz0 hz1]
    have hsub : res * 10 + ((((c : ℤ) - 48) % 256).toNat : ℤ) -
        ((((c : ℤ) - 48) % 256).toNat : ℤ) = res * 10 := by ring
    rw [if_neg (by
      intro hne
      exact hne (by rw [hsub, Int.mul_tdiv_cancel res (by norm_num)]))]
    rw [hv]

/-- Digits produced by `natDecAux` are ASCII digits. -/
theorem natDecAux_digits : ∀ fuel n, n < fuel → ∀ b ∈ natDecAux fuel n, 48 ≤ b ∧ b ≤ 57 := by
  intro fuel
  induction fuel with
  | zero => intro n hn; exact absurd hn (by omega)
  | succ f ih =>
    intro n hn b hb
    rw [natDecAux] at hb
    by_cases h10 : n < 10
    · rw [if_pos h10] at hb
      simp at hb
      omega
    · rw [if_neg h10] at hb
      rw [List.mem_append] at hb
      rcases hb with hb | hb
      · exact ih (n / 10) (by omega) b hb
      · simp at hb
        omega

/-- `natDecAux` never produces the empty digit list. -/
theorem natDecAux_ne_nil : ∀ fuel n, n < fuel → natDecAux fuel n ≠ [] := by
  intro fuel
  induction fuel with
  | zero => intro n hn; exact absurd hn (by omega)
  | succ f _ =>
    intro n _
    rw [natDecAux]
    by_cases h10 : n < 10
    · rw [if_pos h10]; simp
    · rw [if_neg h10]; simp

/-- The digit loop consumes the decimal representation of `n` and accumulates
its value, for totals within the `int` range. -/
theorem ti2_natDecAux : ∀ fuel n, n < fuel → ∀ res : ℤ, 0 ≤ res →
    res * 10 ^ (natDecAux fuel n).length + n ≤ 2147483647 →
    ∀ rest, toIntegerInt2 2147483647 (natDecAux fuel n ++ rest) res =
      toIntegerInt2 2147483647 rest (res * 10 ^ (natDecAux fuel n).length + n) := by
  intro fuel
  induction fuel with
  | zero => intro n hn; exact absurd hn (by omega)
  | succ f ih =>
    intro n hn res h0 hb rest
    by_cases h10 : n < 10
    · rw [natDecAux, if_pos h10] at hb ⊢
      simp only [List.length_cons, List.length_nil, List.cons_append, List.nil_append,
        pow_one, zero_add] at hb ⊢
      have heq : res * 10 + (((48 + n : Nat) : ℤ) - 48) = res * 10 + (n : ℤ) := by
        push_cast
        ring
      rw [ti2_digit_step (48 + n) (by omega) (by omega) res h0 (by rw [heq]; omega) rest, heq]
    · rw [natDecAux, if_neg h10] at hb ⊢
      rw [List.append_assoc, List.singleton_append]
      have hlen : (natDecAux f (n / 10) ++ [48 + n % 10]).length =
          (natDecAux f (n / 10)).length + 1 := by simp
      rw [hlen] at hb ⊢
      have hQ0 : (0 : ℤ) ≤ res * 10 ^ (natDecAux f (n / 10)).length :=
        mul_nonneg h0 (by positivity)
      have hb' : res * 10 ^ (natDecAux f (n / 10)).length + (n / 10 : Nat) ≤ 2147483647 := by
        rw [pow_succ] at hb
        have h1 : res * (10 ^ (natDecAux f (n / 10)).length * 10) =
            res * 10 ^ (natDecAux f (n / 10)).length * 10 := by ring
        rw [h1] at hb
        omega
      rw [ih (n / 10) (by omega) res h0 hb' ((48 + n % 10) :: rest)]
      have heq2 : (res * 10 ^ (natDecAux f (n / 10)).length + (n / 10 : Nat)) * 10 +
          (((48 + n % 10 : Nat) : ℤ) - 48) =
          res * 10 ^ ((natDecAux f (n / 10)).length + 1) + (n : ℤ) := by
        have hsplit : (n : ℤ) = 10 * ((n / 10 : Nat) : ℤ) + ((n % 10 : Nat) : ℤ) := by omega
        rw [hsplit, pow_succ]
        push_cast
        ring
      rw [ti2_digit_step (48 + n % 10) (by omega) (by omega) _
        (by positivity) (by rw [heq2]; exact hb) rest, heq2]

/-- `parseInt` into `int` inverts the decimal rendering for in-range values. -/
theorem parseIntI_natDec (n : Nat) (h : n ≤ 2147483647) : parseIntI (natDec n) = some (n : ℤ) := by
  have hne : natDec n ≠ [] := natDecAux_ne_nil (n + 1) n (by omega)
  cases hd : natDec n with
  | nil => exact absurd hd hne
  | cons c r =>
    have hdig : 48 ≤ c ∧ c ≤ 57 := by
      refine natDecAux_digits (n + 1) n (by omega) c ?_
      rw [show natDecAux (n + 1) n = natDec n from rfl, hd]
      simp
    have hrun : toIntegerInt2 2147483647 (natDec n) 0 = some ((n : ℤ), []) := by
      have := ti2_natDecAux (n + 1) n (by omega) 0 le_rfl
        (by simpa using (by exact_mod_cast h : ((n : Nat) : ℤ) ≤ 2147483647)) []
      rw [List.append_nil] at this
      rw [show natDec n = natDecAux (n + 1) n from rfl, this]
      simp [toIntegerInt2]
    have h45 : ¬c = 45 := by rintro rfl; exact absurd hdig.1 (by decide)
    have h43 : ¬c = 43 := by rintro rfl; exact absurd hdig.1 (by decide)
    have hsig : toIntegerIntSigned (c :: r) = toIntegerInt2 2147483647 (c :: r) 0 := by
      simp only [toIntegerIntSigned]
      rw [if_neg h45, if_neg h43]
    rw [parseIntI, hsig, ← hd, hrun]
    simp

/-- `charFind` is `none` at or past the end. -/
theorem charFind_end (text : Str) (start : Nat) (h : text.length ≤ start) :
    charFind text 9 start = none := by
  rw [charFind, Nat.sub_eq_zero_of_le h]
  rfl

/-- `charFind` unrolling: a hit at the scan start. -/
theorem charFind_hit (text : Str) (start : Nat) (h : start < text.length)
    (he : text.getD start 0 = 9) : charFind text 9 start = some start := by
  have hm : matchesAt text [9] start = true := by
    rw [List.getD_eq_getElem?_getD, List.getElem?_eq_getElem h, Option.getD_some] at he
    rw [matchesAt, decide_eq_true_eq, List.drop_eq_getElem_cons h, List.length_cons,
      List.length_nil, List.take_succ_cons, List.take_zero, he]
  rw [charFind]
  rw [show text.length - start = (text.length - (start + 1)) + 1 by omega, findLoop, if_pos hm]

/-- `charFind` unrolling: a miss at the scan start. -/
theorem charFind_skip (text : Str) (start : Nat) (h : start < text.length)
    (hne : text.getD start 0 ≠ 9) : charFind text 9 start = charFind text 9 (start + 1) := by
  have hm : ¬matchesAt text [9] start = true := by
    rw [matchesAt, decide_eq_true_eq, List.drop_eq_getElem_cons h, List.length_cons,
      List.length_nil, List.take_succ_cons, List.take_zero]
    intro hcon
    apply hne
    rw [List.getD_eq_getElem?_getD, List.getElem?_eq_getElem h, Option.getD_some]
    exact (List.cons_eq_cons.mp hcon).1
  rw [charFind, charFind]
  rw [show text.length - start = (text.length - (start + 1)) + 1 by omega, findLoop, if_neg hm]

/-- Scanning for a separator across a separator-free token skips it. -/
theorem charFind_over_token : ∀ (tok : Str), (∀ b ∈ tok, b ≠ 9) →
    ∀ (text : Str) (start : Nat) (tail : Str), text.drop start = tok ++ tail →
    start + tok.length ≤ text.length →
    charFind text 9 start = charFind text 9 (start + tok.length) := by
  intro tok
  induction tok with
  | nil => intro _ text start tail _ _; simp
  | cons b tok ih =>
    intro hnb text start tail hdrop hlen
    have hstart : start < text.length := by
      simp only [List.length_cons] at hlen
      omega
    have hget : text.getD start 0 = b := by
      have h1 := List.head?_drop text start
      rw [hdrop, List.cons_append, List.head?_cons] at h1
      rw [List.getD_eq_getElem?_getD, ← h1]
      rfl
    have hdrop1 : text.drop (start + 1) = tok ++ tail := by
      rw [← List.drop_drop 1 start text, hdrop]
      simp
    rw [charFind_skip text start hstart (by rw [hget]; exact hnb b (by simp))]
    rw [ih (fun x hx => hnb x (by simp [hx])) text (start + 1) tail hdrop1
      (by simp only [List.length_cons] at hlen; omega)]
    congr 1
    simp only [List.length_cons]
    omega

/-- Past the end of the input, the split loop yields nothing. -/
theorem splitSepLoop_past (fuel : Nat) (text : Str) (start : Nat) (h : text.length ≤ start) :
    splitSepLoop text 9 fuel start = [] := by
  cases fuel with
  | zero => rfl
  | succ f =>
    rw [splitSepLoop, show nextLine text text.length 9 start = none from by
      rw [nextLine, if_pos (by omega)]]

/-- Iterated `nextLine` recovers non-empty, separator-free tokens from their
tab-joined concatenation. -/
theorem splitSepLoop_join : ∀ (toks : List Str), (∀ t ∈ toks, t ≠ [] ∧ ∀ b ∈ t, b ≠ 9) →
    ∀ (text : Str) (start fuel : Nat),
    text.drop start = (toks.intersperse [9]).flatten →
    start + ((toks.intersperse [9]).flatten).length = text.length →
    text.length + 1 ≤ start + fuel →
    splitSepLoop text 9 fuel start = toks := by
  intro toks
  induction toks with
  | nil =>
    intro _ text start fuel _ hlen hfuel
    have hstart : text.length ≤ start := by
      simp only [List.intersperse_nil, List.flatten_nil, List.length_nil] at hlen
      omega
    exact splitSepLoop_past fuel text start hstart
  | cons tok toks ih =>
    intro hgood text start fuel hdrop hlen hfuel
    have htok := hgood tok (by simp)
    have htlen : 1 ≤ tok.length := List.length_pos.mpr htok.1
    cases toks with
    | nil =>
      have hfl : (([tok] : List Str).intersperse [9]).flatten = tok := by simp
      rw [hfl] at hdrop hlen
      have hstart : start < text.length := by omega
      have hcf : charFind text 9 start = none := by
        rw [charFind_over_token tok htok.2 text start [] (by rw [hdrop, List.append_nil])
          (by omega)]
        exact charFind_end text _ (by omega)
      cases fuel with
      | zero => exact absurd hfuel (by omega)
      | succ f =>
        have hline : substr text start (text.length - start) = tok := by
          rw [substr, hdrop, show text.length - start = tok.length by omega, List.take_length]
        have hnl : nextLine text text.length 9 start = some (tok, text.length + 1) := by
          rw [nextLine, if_neg (by omega), hcf]
          simp only [Option.getD_none]
          rw [hline]
        rw [splitSepLoop, hnl]
        show tok :: splitSepLoop text 9 f (text.length + 1) = [tok]
        rw [splitSepLoop_past f text (text.length + 1) (by omega)]
    | cons tok2 toks2 =>
      have hfl : ((tok :: tok2 :: toks2).intersperse [9]).flatten =
          tok ++ 9 :: ((tok2 :: toks2).intersperse [9]).flatten := by
        rfl
      rw [hfl] at hdrop hlen
      have hRlen : start + tok.length + 1 +
          (((tok2 :: toks2).intersperse [9]).flatten).length = text.length := by
        rw [← hlen]
        simp
        omega
      have hdrop2 : text.drop (start + tok.length) =
          9 :: ((tok2 :: toks2).intersperse [9]).flatten := by
        rw [← List.drop_drop tok.length start text, hdrop, List.drop_left]
      have hp : charFind text 9 (start + tok.length) = some (start + tok.length) := by
        refine charFind_hit text (start + tok.length) (by omega) ?_
        have h1 := List.head?_drop text (start + tok.length)
        rw [hdrop2, List.head?_cons] at h1
        rw [List.getD_eq_getElem?_getD, ← h1]
        rfl
      have hcf : charFind text 9 start = some (start + tok.length) := by
        rw [charFind_over_token tok htok.2 text start _ hdrop (by omega)]
        exact hp
      cases fuel with
      | zero => exact absurd hfuel (by omega)
      | succ f =>
        have hline : substr text start (start + tok.length - start) = tok := by
          rw [substr, hdrop, show start + tok.length - start = tok.length by omega,
            List.take_left]
        have hnl : nextLine text text.length 9 start = some (tok, start + tok.length + 1) := by
          rw [nextLine, if_neg (by omega), hcf]
          simp only [Option.getD_some]
          rw [hline]
        rw [splitSepLoop, hnl]
        show tok :: splitSepLoop text 9 f (start + tok.length + 1) = tok :: tok2 :: toks2
        rw [ih (fun t ht => hgood t (by simp [ht])) text (start + tok.length + 1) f
          (by rw [← List.drop_drop 1 (start + tok.length) text, hdrop2]; rfl)
          hRlen (by omega)]

/-- `splitSep` recovers non-empty, separator-free tokens from their tab-joined
form. -/
theorem splitSep_join (toks : List Str) (h : ∀ t ∈ toks, t ≠ [] ∧ ∀ b ∈ t, b ≠ 9) :
    splitSep ((toks.intersperse [9]).flatten) 9 = toks := by
  rw [splitSep]
  exact splitSepLoop_join toks h _ 0 (((toks.intersperse [9]).flatten).length + 1)
    (by rw [List.drop_zero]) (by omega) (by omega)

/-- Unfolding of the `diff_fromDelta` loop on a `+` token. -/
theorem fromDeltaLoop_ins (text1 : Str) (body : Str) (rest : List Str) (pointer : Nat)
    (acc : List Diff) :
    fromDeltaLoop text1 ((43 :: body) :: rest) pointer acc =
      (match percentDecodePlus body with
       | none => none
       | some dec => fromDeltaLoop text1 rest pointer (acc ++ [⟨Operation.INSERT, dec⟩])) := rfl

/-- Unfolding of the `diff_fromDelta` loop on a `=` token. -/
theorem fromDeltaLoop_eq (text1 : Str) (body : Str) (rest : List Str) (pointer : Nat)
    (acc : List Diff) :
    fromDeltaLoop text1 ((61 :: body) :: rest) pointer acc =
      (match parseIntI body with
       | none => none
       | some n =>
         if n < 0 then none
         else if pointer ≥ text1.length then none
         else fromDeltaLoop text1 rest (pointer + n.toNat)
           (acc ++ [⟨Operation.EQUAL, substr text1 pointer n.toNat⟩])) := rfl

/-- Unfolding of the `diff_fromDelta` loop on a `-` token. -/
theorem fromDeltaLoop_del (text1 : Str) (body : Str) (rest : List Str) (pointer : Nat)
    (acc : List Diff) :
    fromDeltaLoop text1 ((45 :: body) :: rest) pointer acc =
      (match parseIntI body with
       | none => none
       | some n =>
         if n < 0 then none
         else if pointer ≥ text1.length then none
         else fromDeltaLoop text1 rest (pointer + n.toNat)
           (acc ++ [⟨Operation.DELETE, substr text1 pointer n.toNat⟩])) := rfl

/-- The `+` token step under a successful decode. -/
theorem fromDeltaLoop_ins2 (text1 : Str) (body : Str) (rest : List Str) (pointer : Nat)
    (acc : List Diff) (dec : Str) (h : percentDecodePlus body = some dec) :
    fromDeltaLoop text1 ((43 :: body) :: rest) pointer acc =
      fromDeltaLoop text1 rest pointer (acc ++ [⟨Operation.INSERT, dec⟩]) := by
  rw [fromDeltaLoop_ins, h]

/-- The `=` token step under a successful in-range parse. -/
theorem fromDeltaLoop_eq2 (text1 : Str) (body : Str) (rest : List Str) (pointer : Nat)
    (acc : List Diff) (L : Nat) (h : parseIntI body = some (L : ℤ))
    (hp : pointer < text1.length) :
    fromDeltaLoop text1 ((61 :: body) :: rest) pointer acc =
      fromDeltaLoop text1 rest (pointer + L)
        (acc ++ [⟨Operation.EQUAL, substr text1 pointer L⟩]) := by
  rw [fromDeltaLoop_eq, h]
  show (if ((L : ℤ)) < 0 then none
        else if pointer ≥ text1.length then none
        else fromDeltaLoop text1 rest (pointer + ((L : ℤ)).toNat)
          (acc ++ [⟨Operation.EQUAL, substr text1 pointer ((L : ℤ)).toNat⟩])) = _
  rw [if_neg (by simp), if_neg (by omega), Int.toNat_natCast]

/-- The `-` token step under a successful in-range parse. -/
theorem fromDeltaLoop_del2 (text1 : Str) (body : Str) (rest : List Str) (pointer : Nat)
    (acc : List Diff) (L : Nat) (h : parseIntI body = some (L : ℤ))
    (hp : pointer < text1.length) :
    fromDeltaLoop text1 ((45 :: body) :: rest) pointer acc =
      fromDeltaLoop text1 rest (pointer + L)
        (acc ++ [⟨Operation.DELETE, substr text1 pointer L⟩]) := by
  rw [fromDeltaLoop_del, h]
  show (if ((L : ℤ)) < 0 then none
        else if pointer ≥ text1.length then none
        else fromDeltaLoop text1 rest (pointer + ((L : ℤ)).toNat)
          (acc ++ [⟨Operation.DELETE, substr text1 pointer ((L : ℤ)).toNat⟩])) = _
  rw [if_neg (by simp), if_neg (by omega), Int.toNat_natCast]

/-- Splitting `diff_text1` at the head entry. -/
theorem diff_text1_cons (e : Diff) (ds : List Diff) :
    diff_text1 (e :: ds) =
      (if e.operation = Operation.INSERT then [] else e.text) ++ diff_text1 ds := by
  simp only [diff_text1, diff_text1From, List.drop_zero, List.filter_cons]
  by_cases hop : e.operation = Operation.INSERT
  · simp [hop]
  · simp [hop]

/-- The `diff_fromDelta` token loop inverts `diff_toDelta` token by token, on
scripts whose non-INSERT texts are non-empty and in `int` range and whose
INSERT texts are sub-0x80. -/
theorem fromDelta_loop : ∀ (ds : List Diff),
    (∀ e ∈ ds, (e.operation = Operation.INSERT → ∀ c ∈ e.text, c < 128) ∧
      (e.operation ≠ Operation.INSERT → e.text ≠ [] ∧ e.text.length ≤ 2147483647)) →
    ∀ (text1 : Str) (pointer : Nat) (acc : List Diff),
    text1.drop pointer = diff_text1 ds →
    pointer + (diff_text1 ds).length = text1.length →
    fromDeltaLoop text1 (ds.map toDeltaToken) pointer acc = some (acc ++ ds) := by
  intro ds
  induction ds with
  | nil =>
    intro _ text1 pointer acc _ hlen
    rw [List.map_nil, fromDeltaLoop, if_pos (by simpa using hlen)]
    simp
  | cons e ds ih =>
    intro hgood text1 pointer acc hdrop hlen
    have he := hgood e (by simp)
    have hrest : ∀ x ∈ ds, (x.operation = Operation.INSERT → ∀ c ∈ x.text, c < 128) ∧
        (x.operation ≠ Operation.INSERT → x.text ≠ [] ∧ x.text.length ≤ 2147483647) :=
      fun x hx => hgood x (by simp [hx])
    rw [List.map_cons]
    cases hop : e.operation with
    | INSERT =>
      have htext1 : diff_text1 (e :: ds) = diff_text1 ds := by
        rw [diff_text1_cons, hop, if_pos rfl, List.nil_append]
      rw [htext1] at hdrop hlen
      rw [show toDeltaToken e = 43 :: encodeURI e.text from by rw [toDeltaToken, hop]]
      rw [fromDeltaLoop_ins2 text1 _ _ pointer acc e.text
        (percentDecodePlus_encodeURI e.text (he.1 hop))]
      have h1 := ih hrest text1 pointer (acc ++ [⟨Operation.INSERT, e.text⟩]) hdrop hlen
      rw [h1, show (⟨Operation.INSERT, e.text⟩ : Diff) = e from by rw [← hop]]
      simp
    | EQUAL =>
      have hne : e.operation ≠ Operation.INSERT := by rw [hop]; exact fun hh => Operation.noConfusion hh
      have htext1 : diff_text1 (e :: ds) = e.text ++ diff_text1 ds := by
        rw [diff_text1_cons, if_neg hne]
      rw [htext1] at hdrop hlen
      rw [List.length_append] at hlen
      have hptr : pointer < text1.length := by
        have := List.length_pos.mpr (he.2 hne).1
        omega
      rw [show toDeltaToken e = 61 :: natDec e.text.length from by rw [toDeltaToken, hop]]
      rw [fromDeltaLoop_eq2 text1 _ _ pointer acc e.text.length
        (parseIntI_natDec e.text.length (he.2 hne).2) hptr]
      have hsub : substr text1 pointer e.text.length = e.text := by
        rw [substr, hdrop, List.take_left]
      have hdrop2 : text1.drop (pointer + e.text.length) = diff_text1 ds := by
        rw [← List.drop_drop e.text.length pointer text1, hdrop, List.drop_left]
      have h1 := ih hrest text1 (pointer + e.text.length)
        (acc ++ [⟨Operation.EQUAL, e.text⟩]) hdrop2 (by omega)
      rw [hsub, h1, show (⟨Operation.EQUAL, e.text⟩ : Diff) = e from by rw [← hop]]
      simp
    | DELETE =>
      have hne : e.operation ≠ Operation.INSERT := by rw [hop]; exact fun hh => Operation.noConfusion hh
      have htext1 : diff_text1 (e :: ds) = e.text ++ diff_text1 ds := by
        rw [diff_text1_cons, if_neg hne]
      rw [htext1] at hdrop hlen
      rw [List.length_append] at hlen
      have hptr : pointer < text1.length := by
        have := List.length_pos.mpr (he.2 hne).1
        omega
      rw [show toDeltaToken e = 45 :: natDec e.text.length from by rw [toDeltaToken, hop]]
      rw [fromDeltaLoop_del2 text1 _ _ pointer acc e.text.length
        (parseIntI_natDec e.text.length (he.2 hne).2) hptr]
      have hsub : substr text1 pointer e.text.length = e.text := by
        rw [substr, hdrop, List.take_left]
      have hdrop2 : text1.drop (pointer + e.text.length) = diff_text1 ds := by
        rw [← List.drop_drop e.text.length pointer text1, hdrop, List.drop_left]
      have h1 := ih hrest text1 (pointer + e.text.length)
        (acc ++ [⟨Operation.DELETE, e.text⟩]) hdrop2 (by omega)
      rw [hsub, h1, show (⟨Operation.DELETE, e.text⟩ : Diff) = e from by rw [← hop]]
      simp

/-- The tokens that `diff_toDelta` emits for a well-behaved script are
non-empty and tab-free. -/
theorem toDeltaToken_good (d : List Diff)
    (h : ∀ e ∈ d, (e.operation = Operation.INSERT → ∀ c ∈ e.text, c < 128) ∧
      (e.operation ≠ Operation.INSERT → e.text ≠ [] ∧ e.text.length ≤ 2147483647)) :
    ∀ t ∈ d.map toDeltaToken, t ≠ [] ∧ ∀ b ∈ t, b ≠ 9 := by
  intro t ht
  rw [List.mem_map] at ht
  obtain ⟨e, he, rfl⟩ := ht
  have hdig : ∀ b ∈ natDec e.text.length, b ≠ 9 := by
    intro b hb h9
    have := natDecAux_digits (e.text.length + 1) e.text.length (by omega) b hb
    rw [h9] at this
    exact absurd this.1 (by decide)
  cases hop : e.operation with
  | INSERT =>
    rw [toDeltaToken, hop]
    refine ⟨by simp, ?_⟩
    intro b hb
    rw [List.mem_cons] at hb
    rcases hb with hb | hb
    · rw [hb]; decide
    · exact encodeURI_no_tab e.text ((h e he).1 hop) b hb
  | EQUAL =>
    rw [toDeltaToken, hop]
    refine ⟨by simp, ?_⟩
    intro b hb
    rw [List.mem_cons] at hb
    rcases hb with hb | hb
    · rw [hb]; decide
    · exact hdig b hb
  | DELETE =>
    rw [toDeltaToken, hop]
    refine ⟨by simp, ?_⟩
    intro b hb
    rw [List.mem_cons] at hb
    rcases hb with hb | hb
    · rw [hb]; decide
    · exact hdig b hb

end DeltaRoundTrip

/-- C4, counterexample: the round trip fails as stated.  A script with an
empty EQUAL entry serialises to the delta `"=0"`, which `diff_fromDelta`
rejects; and an INSERT of the character U+00E9 comes back as two characters,
because the UTF-8 normalisation in `percent_decode` never consumes
continuation bytes (`utf32_from_utf8::to_utf32` returns its iterator without
advancing past `*i`). -/
theorem c4_counterexample :
    (diff_fromDelta (diff_text1 [⟨Operation.EQUAL, []⟩])
        (diff_toDelta [⟨Operation.EQUAL, []⟩]) = none) ∧
    (diff_fromDelta (diff_text1 [⟨Operation.INSERT, [0xE9]⟩])
        (diff_toDelta [⟨Operation.INSERT, [0xE9]⟩]) =
      some [⟨Operation.INSERT, [0xE9, 0xA9]⟩]) ∧
    ([⟨Operation.INSERT, ([0xE9, 0xA9] : Str)⟩] : List Diff) ≠
      [⟨Operation.INSERT, ([0xE9] : Str)⟩] := by
  refine ⟨by decide, by decide, by decide⟩

/-- C4, amended: for every diff script whose EQUAL and DELETE entries carry
non-empty text of length at most `2^31 - 1` and whose INSERT entries contain
only characters below 0x80, `diff_fromDelta (diff_text1 d) (diff_toDelta d)`
succeeds and returns `d`. -/
theorem c4_theorem (d : List Diff)
    (h : ∀ e ∈ d, (e.operation = Operation.INSERT → ∀ c ∈ e.text, c < 128) ∧
      (e.operation ≠ Operation.INSERT → e.text ≠ [] ∧ e.text.length ≤ 2147483647)) :
    diff_fromDelta (diff_text1 d) (diff_toDelta d) = some d := by
  rw [diff_fromDelta, diff_toDelta, splitSep_join (d.map toDeltaToken) (toDeltaToken_good d h)]
  have h1 := fromDelta_loop d h (diff_text1 d) 0 [] (by rw [List.drop_zero]) (by simp)
  rw [h1, List.nil_append]

/-- C4, witness for the amended theorem at a concrete three-entry script. -/
theorem c4_witness :
    diff_fromDelta
      (diff_text1 [⟨Operation.DELETE, str "ab"⟩, ⟨Operation.INSERT, str "x!"⟩,
        ⟨Operation.EQUAL, str "c"⟩])
      (diff_toDelta [⟨Operation.DELETE, str "ab"⟩, ⟨Operation.INSERT, str "x!"⟩,
        ⟨Operation.EQUAL, str "c"⟩]) =
      some [⟨Operation.DELETE, str "ab"⟩, ⟨Operation.INSERT, str "x!"⟩,
        ⟨Operation.EQUAL, str "c"⟩] :=
  c4_theorem [⟨Operation.DELETE, str "ab"⟩, ⟨Operation.INSERT, str "x!"⟩,
    ⟨Operation.EQUAL, str "c"⟩] (by decide)

section CleanupMerge
theorem commonPrefix_self : ∀ s : Str, diff_commonPrefix s s = s.length := by
  intro s
  induction s with
  | nil => rfl
  | cons a s ih => rw [diff_commonPrefix, if_pos rfl, ih, List.length_cons]

theorem cm1EqStep_delins (a b : Str) (hk : diff_commonPrefix b a = 0) :
    cm1EqStep [⟨Operation.DELETE, a⟩, ⟨Operation.INSERT, b⟩, ⟨Operation.EQUAL, []⟩] 2 1 1 a b =
      (let D : List Diff :=
        (if a.length - diff_commonSuffix b a ≠ 0 then
           [⟨Operation.DELETE, a.take (a.length - diff_commonSuffix b a)⟩] else []) ++
        (if b.length - diff_commonSuffix b a ≠ 0 then
           [⟨Operation.INSERT, b.take (b.length - diff_commonSuffix b a)⟩] else []) ++
        [⟨Operation.EQUAL, b.drop (b.length - diff_commonSuffix b a)⟩]
       (D, D.length)) := by
  simp only [cm1EqStep, hk]
  norm_num
  by_cases hm : diff_commonSuffix b a = 0
  · simp only [if_pos hm, hm]
    norm_num
    by_cases ha' : a = [] <;> by_cases hb' : b = [] <;>
      simp [ha', hb', splice]
  · simp only [if_neg hm]
    norm_num
    have hma : diff_commonSuffix b a ≤ a.length := commonSuffix_le_right b a
    have hmb : diff_commonSuffix b a ≤ b.length := commonSuffix_le_left b a
    by_cases hA : a.length - diff_commonSuffix b a = 0 <;>
      by_cases hB : b.length - diff_commonSuffix b a = 0
    · exfalso
      have hmeq : diff_commonSuffix b a = b.length ∧ diff_commonSuffix b a = a.length := by omega
      have hba : b.reverse = a.reverse := by
        have ht := commonPrefix_take (b.reverse) (a.reverse)
        rw [diff_commonSuffix] at hmeq
        rw [hmeq.1] at ht
        have h1 : List.take (List.length b) (List.reverse b) = List.reverse b := by
          rw [← List.length_reverse b, List.take_length]
        have h2 : List.take (List.length b) (List.reverse a) = List.reverse a := by
          have hlen : List.length b = List.length a := by omega
          rw [hlen, ← List.length_reverse a, List.take_length]
        rw [h1, h2] at ht
        exact ht
      have hab : b = a := List.reverse_injective hba
      rw [hab, commonPrefix_self] at hk
      omega
    · have hA0 : List.take (a.length - diff_commonSuffix b a) a = [] := by
        rw [hA, List.take_zero]
      have hB' : List.take (b.length - diff_commonSuffix b a) b ≠ [] := by
        intro hc
        have := congrArg List.length hc
        simp at this
        omega
      simp [substr, substrFrom, hA, hB, hA0, hB', splice]
    · have hB0 : List.take (b.length - diff_commonSuffix b a) b = [] := by
        rw [hB, List.take_zero]
      have hA' : List.take (a.length - diff_commonSuffix b a) a ≠ [] := by
        intro hc
        have := congrArg List.length hc
        simp at this
        omega
      simp [substr, substrFrom, hA, hB, hA', hB0, splice]
    · have hA' : List.take (a.length - diff_commonSuffix b a) a ≠ [] := by
        intro hc
        have := congrArg List.length hc
        simp at this
        omega
      have hB' : List.take (b.length - diff_commonSuffix b a) b ≠ [] := by
        intro hc
        have := congrArg List.length hc
        simp at this
        omega
      simp [substr, substrFrom, hA, hB, hA', hB', splice]

theorem cm1_step_del2 (diffs : List Diff) (pointer : Nat) (e : Diff) {fuel cd ci : Nat}
    {td ti : Str} (h : pointer < diffs.length) (hget : diffs.getD pointer dDiff = e)
    (he : e.operation = Operation.DELETE) :
    cm1 (fuel + 1) diffs pointer cd ci td ti =
      cm1 fuel diffs (pointer + 1) (cd + 1) ci (td ++ e.text) ti := by
  rw [cm1, if_pos h, hget, he]

theorem cm1_step_ins2 (diffs : List Diff) (pointer : Nat) (e : Diff) {fuel cd ci : Nat}
    {td ti : Str} (h : pointer < diffs.length) (hget : diffs.getD pointer dDiff = e)
    (he : e.operation = Operation.INSERT) :
    cm1 (fuel + 1) diffs pointer cd ci td ti =
      cm1 fuel diffs (pointer + 1) cd (ci + 1) td (ti ++ e.text) := by
  rw [cm1, if_pos h, hget, he]

theorem cm1_step_eq2 (diffs : List Diff) (pointer : Nat) {fuel cd ci : Nat} {td ti : Str}
    (h : pointer < diffs.length)
    (hop : (diffs.getD pointer dDiff).operation = Operation.EQUAL) :
    cm1 (fuel + 1) diffs pointer cd ci td ti =
      cm1 fuel (cm1EqStep diffs pointer cd ci td ti).1 (cm1EqStep diffs pointer cd ci td ti).2
        0 0 [] [] := by
  rw [cm1, if_pos h, hop]

theorem cm1_exit' {fuel : Nat} {diffs : List Diff} {pointer cd ci : Nat} {td ti : Str}
    (h : ¬pointer < diffs.length) :
    cm1 (fuel + 1) diffs pointer cd ci td ti = some diffs := by
  rw [cm1, if_neg h]

theorem cm2_exit' {fuel : Nat} {diffs : List Diff} {pointer : Nat} {changes : Bool}
    (h : ¬pointer < diffs.length - 1) :
    cm2 (fuel + 1) diffs pointer changes = some (diffs, changes) := by
  rw [cm2, if_neg h]

theorem cm2_skip' {fuel : Nat} {diffs : List Diff} {pointer : Nat} {changes : Bool}
    (h : pointer < diffs.length - 1)
    (hne : ¬((diffs.getD (pointer - 1) dDiff).operation = Operation.EQUAL ∧
        (diffs.getD (pointer + 1) dDiff).operation = Operation.EQUAL)) :
    cm2 (fuel + 1) diffs pointer changes = cm2 fuel diffs (pointer + 1) changes := by
  rw [cm2, if_pos h, if_neg hne]

theorem cm1_delins (a b : Str) (hk : diff_commonPrefix b a = 0) :
    cm1 8 [⟨Operation.DELETE, a⟩, ⟨Operation.INSERT, b⟩, ⟨Operation.EQUAL, []⟩]
      0 0 0 [] [] =
      some ((if a.length - diff_commonSuffix b a ≠ 0 then
               [⟨Operation.DELETE, a.take (a.length - diff_commonSuffix b a)⟩] else []) ++
            (if b.length - diff_commonSuffix b a ≠ 0 then
               [⟨Operation.INSERT, b.take (b.length - diff_commonSuffix b a)⟩] else []) ++
            [⟨Operation.EQUAL, b.drop (b.length - diff_commonSuffix b a)⟩]) := by
  rw [cm1_step_del2 [⟨Operation.DELETE, a⟩, ⟨Operation.INSERT, b⟩, ⟨Operation.EQUAL, []⟩]
    0 ⟨Operation.DELETE, a⟩ (by norm_num) rfl rfl]
  simp only [List.nil_append, Nat.zero_add]
  rw [cm1_step_ins2 [⟨Operation.DELETE, a⟩, ⟨Operation.INSERT, b⟩, ⟨Operation.EQUAL, []⟩]
    1 ⟨Operation.INSERT, b⟩ (by norm_num) rfl rfl]
  simp only [List.nil_append, Nat.zero_add]
  rw [cm1_step_eq2 [⟨Operation.DELETE, a⟩, ⟨Operation.INSERT, b⟩, ⟨Operation.EQUAL, []⟩]
    2 (by norm_num) rfl]
  rw [cm1EqStep_delins a b hk]
  exact cm1_exit' (lt_irrefl _)

theorem delins_both_empty_absurd (a b : Str) (hk : diff_commonPrefix b a = 0)
    (hm : ¬diff_commonSuffix b a = 0) (hA : a.length - diff_commonSuffix b a = 0)
    (hB : b.length - diff_commonSuffix b a = 0) : False := by
  have hma : diff_commonSuffix b a ≤ a.length := commonSuffix_le_right b a
  have hmb : diff_commonSuffix b a ≤ b.length := commonSuffix_le_left b a
  have hmeq : diff_commonSuffix b a = b.length ∧ diff_commonSuffix b a = a.length := by omega
  have hba : b.reverse = a.reverse := by
    have ht := commonPrefix_take (b.reverse) (a.reverse)
    rw [diff_commonSuffix] at hmeq
    rw [hmeq.1] at ht
    have h1 : List.take (List.length b) (List.reverse b) = List.reverse b := by
      rw [← List.length_reverse b, List.take_length]
    have h2 : List.take (List.length b) (List.reverse a) = List.reverse a := by
      have hlen : List.length b = List.length a := by omega
      rw [hlen, ← List.length_reverse a, List.take_length]
    rw [h1, h2] at ht
    exact ht
  have hab : b = a := List.reverse_injective hba
  rw [hab, commonPrefix_self] at hk
  omega

theorem cleanupMerge_delins (a b : Str) (ha : a ≠ []) (hk : diff_commonPrefix b a = 0) :
    diff_cleanupMerge 8 [⟨Operation.DELETE, a⟩, ⟨Operation.INSERT, b⟩] =
      some ((if a.length - diff_commonSuffix b a ≠ 0 then
               [⟨Operation.DELETE, a.take (a.length - diff_commonSuffix b a)⟩] else []) ++
            (if b.length - diff_commonSuffix b a ≠ 0 then
               [⟨Operation.INSERT, b.take (b.length - diff_commonSuffix b a)⟩] else []) ++
            (if diff_commonSuffix b a ≠ 0 then
               [⟨Operation.EQUAL, b.drop (b.length - diff_commonSuffix b a)⟩] else [])) := by
  have ha' : ¬(a.length = 0) := fun hc => ha (List.length_eq_zero.mp hc)
  have hma : diff_commonSuffix b a ≤ a.length := commonSuffix_le_right b a
  have hmb : diff_commonSuffix b a ≤ b.length := commonSuffix_le_left b a
  rw [diff_cleanupMerge]
  rw [if_neg (by simp)]
  simp only [List.cons_append, List.nil_append]
  rw [cm1_delins a b hk]
  by_cases hm : diff_commonSuffix b a = 0
  · simp only [hm, Nat.sub_zero, List.take_length, List.drop_length, ne_eq, ha',
      not_false_iff, if_true, if_pos, if_neg, not_true, if_false]
    by_cases hb : List.length b = 0
    · simp only [hb, not_true, if_false, List.nil_append, List.singleton_append]
      norm_num [List.getD]
      rw [cm2_exit' (by norm_num)]
      simp
    · simp only [hb, not_false_iff, if_true]
      norm_num [List.getD]
      rw [cm2_exit' (by norm_num)]
      simp
  · have hsuf : (List.drop (List.length b - diff_commonSuffix b a) b).length ≠ 0 := by
      simp only [List.length_drop]
      omega
    by_cases hA : a.length - diff_commonSuffix b a = 0 <;>
      by_cases hB : b.length - diff_commonSuffix b a = 0
    · exact absurd (delins_both_empty_absurd a b hk hm hA hB) (fun h => h)
    · simp only [hA, hB, ne_eq, not_true, if_false, not_false_iff, if_true, List.nil_append]
      norm_num [List.getD]
      rw [if_neg (show ¬(List.length b - (List.length b - diff_commonSuffix b a) = 0) by omega)]
      rw [cm2_exit' (by norm_num)]
      simp [hm]
    · simp only [hA, hB, ne_eq, not_true, if_false, not_false_iff, if_true, List.append_nil]
      norm_num [List.getD]
      rw [if_neg (show ¬(b = []) from fun hc => by subst hc; simp at hmb; omega)]
      rw [cm2_exit' (by norm_num)]
      simp [hm]
    · simp only [hA, hB, ne_eq, not_false_iff, if_true]
      norm_num [List.getD]
      rw [if_neg (show ¬(List.length b - (List.length b - diff_commonSuffix b a) = 0) by omega)]
      rw [cm2_skip' (by norm_num) (by simp [List.getD])]
      rw [cm2_exit' (by norm_num)]
      simp [hm]

theorem commonPrefix_drop_eq_zero : ∀ s t : Str,
    diff_commonPrefix (s.drop (diff_commonPrefix s t)) (t.drop (diff_commonPrefix s t)) = 0 := by
  intro s
  induction s with
  | nil => intro t; rfl
  | cons a s ih =>
    intro t
    cases t with
    | nil => rfl
    | cons b t =>
      rw [diff_commonPrefix]
      by_cases hab : a = b
      · rw [if_pos hab]
        simpa using ih t
      · rw [if_neg hab, List.drop_zero, List.drop_zero, diff_commonPrefix, if_neg hab]

theorem commonPrefix_take_zero (s t : Str) (h : diff_commonPrefix s t = 0) (u v : Nat) :
    diff_commonPrefix (s.take u) (t.take v) = 0 := by
  cases s with
  | nil => rw [List.take_nil]; cases t.take v <;> rfl
  | cons a s =>
    cases t with
    | nil =>
      rw [List.take_nil]
      cases (a :: s).take u <;> rfl
    | cons b t =>
      have hab : ¬a = b := by
        intro hc
        rw [diff_commonPrefix, if_pos hc] at h
        exact absurd h (by omega)
      cases u with
      | zero => cases (b :: t).take v <;> rfl
      | succ u =>
        cases v with
        | zero => rfl
        | succ v => rw [List.take_succ_cons, List.take_succ_cons, diff_commonPrefix, if_neg hab]

theorem commonSuffix_take_sub (a b : Str) :
    diff_commonSuffix (b.take (b.length - diff_commonSuffix b a))
      (a.take (a.length - diff_commonSuffix b a)) = 0 := by
  have hma := commonSuffix_le_right b a
  have hmb := commonSuffix_le_left b a
  rw [diff_commonSuffix, List.reverse_take, List.reverse_take]
  rw [show b.length - (b.length - diff_commonSuffix b a) = diff_commonSuffix b a by omega]
  rw [show a.length - (a.length - diff_commonSuffix b a) = diff_commonSuffix b a by omega]
  rw [show diff_commonSuffix b a = diff_commonPrefix b.reverse a.reverse from rfl]
  exact commonPrefix_drop_eq_zero _ _

/-- C5, counterexample: the invariants claimed for `diff_cleanupMerge` fail.
Merging `[EQUAL "x", DELETE "a", INSERT "a", EQUAL "y"]` yields two adjacent
EQUAL entries (the merge loop skips the equality that terminates a factored
run), and an empty EQUAL separating two INSERTs survives untouched. -/
theorem c5_counterexample :
    (diff_cleanupMerge 20 [⟨Operation.EQUAL, str "x"⟩, ⟨Operation.DELETE, str "a"⟩,
        ⟨Operation.INSERT, str "a"⟩, ⟨Operation.EQUAL, str "y"⟩] =
      some [⟨Operation.EQUAL, str "xa"⟩, ⟨Operation.EQUAL, str "y"⟩]) ∧
    ¬List.Chain' (fun d1 d2 : Diff => d1.operation ≠ d2.operation)
      [⟨Operation.EQUAL, str "xa"⟩, ⟨Operation.EQUAL, str "y"⟩] ∧
    (diff_cleanupMerge 20 [⟨Operation.INSERT, str "a"⟩, ⟨Operation.EQUAL, []⟩,
        ⟨Operation.INSERT, str "b"⟩] =
      some [⟨Operation.INSERT, str "a"⟩, ⟨Operation.EQUAL, []⟩,
        ⟨Operation.INSERT, str "b"⟩]) ∧
    ¬(∀ e ∈ ([⟨Operation.INSERT, str "a"⟩, ⟨Operation.EQUAL, []⟩,
        ⟨Operation.INSERT, str "b"⟩] : List Diff), e.operation = Operation.EQUAL → e.text ≠ []) := by
  refine ⟨by decide, ?_, by decide, ?_⟩
  · intro hc
    exact (List.chain'_cons.mp hc).1 rfl
  · intro hc
    exact (hc ⟨Operation.EQUAL, []⟩ (by simp) rfl) rfl

/-- C5, amended: on a pure DELETE+INSERT script with non-empty deleted text
and no common prefix between the two texts, `diff_cleanupMerge` establishes
all three claimed invariants: adjacent operations differ, no EQUAL entry is
empty, and an adjacent DELETE/INSERT pair shares no common prefix or
suffix. -/
theorem c5_theorem (a b : Str) (ha : a ≠ []) (hk : diff_commonPrefix b a = 0) :
    ∃ out, diff_cleanupMerge 8 [⟨Operation.DELETE, a⟩, ⟨Operation.INSERT, b⟩] = some out ∧
      List.Chain' (fun d1 d2 => d1.operation ≠ d2.operation) out ∧
      (∀ e ∈ out, e.operation = Operation.EQUAL → e.text ≠ []) ∧
      List.Chain' (fun d1 d2 => d1.operation = Operation.DELETE →
        d2.operation = Operation.INSERT →
        diff_commonPrefix d2.text d1.text = 0 ∧ diff_commonSuffix d2.text d1.text = 0) out := by
  refine ⟨_, cleanupMerge_delins a b ha hk, ?_⟩
  have ha' : ¬(a.length = 0) := fun hc => ha (List.length_eq_zero.mp hc)
  have hma : diff_commonSuffix b a ≤ a.length := commonSuffix_le_right b a
  have hmb : diff_commonSuffix b a ≤ b.length := commonSuffix_le_left b a
  by_cases hm : diff_commonSuffix b a = 0
  · by_cases hb : b.length = 0
    · simp only [hm, Nat.sub_zero, List.take_length, List.drop_length, ne_eq, ha', hb,
        not_true, not_false_iff, if_true, if_false, List.append_nil]
      refine ⟨by simp, ?_, by simp⟩
      intro e he
      simp at he
      rw [he]
      simp
    · simp only [hm, Nat.sub_zero, List.take_length, List.drop_length, ne_eq, ha', hb,
        not_false_iff, if_true, not_true, if_false, List.nil_append, List.append_nil,
        List.singleton_append]
      refine ⟨?_, ?_, ?_⟩
      · simp [List.chain'_cons]
      · intro e he
        simp at he
        rcases he with he | he <;> rw [he] <;> simp
      · simp only [List.chain'_cons, List.chain'_singleton, and_true]
        intro _ _
        exact ⟨hk, hm⟩
  · have hsuf : (List.drop (List.length b - diff_commonSuffix b a) b) ≠ [] := by
      intro hc
      have := congrArg List.length hc
      simp at this
      omega
    by_cases hA : a.length - diff_commonSuffix b a = 0 <;>
      by_cases hB : b.length - diff_commonSuffix b a = 0
    · exact absurd (delins_both_empty_absurd a b hk hm hA hB) (fun h => h)
    · simp only [hA, hB, hm, ne_eq, not_true, if_false, not_false_iff, if_true,
        List.nil_append, List.singleton_append]
      refine ⟨?_, ?_, ?_⟩
      · simp [List.chain'_cons]
      · intro e he
        simp at he
        rcases he with he | he <;> rw [he]
        · simp
        · simpa using hsuf
      · simp only [List.chain'_cons, List.chain'_singleton, and_true]
        intro hc
        simp at hc
    · simp only [hA, hB, hm, ne_eq, not_true, if_false, not_false_iff, if_true,
        List.append_nil, List.singleton_append]
      refine ⟨?_, ?_, ?_⟩
      · simp [List.chain'_cons]
      · have hbne : b ≠ [] := by
          intro hc
          subst hc
          simp at hmb
          omega
        intro e he
        simp at he
        rcases he with he | he <;> rw [he]
        · simp
        · simpa using hbne
      · simp only [List.chain'_cons, List.chain'_singleton, and_true]
        intro _ hc
        simp at hc
    · simp only [hA, hB, hm, ne_eq, not_false_iff, if_true, List.singleton_append,
        List.cons_append, List.nil_append]
      refine ⟨?_, ?_, ?_⟩
      · simp [List.chain'_cons]
      · intro e he
        simp at he
        rcases he with he | he | he <;> rw [he]
        · simp
        · simp
        · simpa using hsuf
      · simp only [List.chain'_cons, List.chain'_singleton, and_true]
        refine ⟨?_, ?_⟩
        · intro _ _
          exact ⟨commonPrefix_take_zero b a hk _ _, commonSuffix_take_sub a b⟩
        · intro hc
          simp at hc

/-- C5, witness for the amended theorem at a concrete input. -/
theorem c5_witness :
    ∃ out, diff_cleanupMerge 8 [⟨Operation.DELETE, str "xa"⟩, ⟨Operation.INSERT, str "ya"⟩] =
        some out ∧
      List.Chain' (fun d1 d2 => d1.operation ≠ d2.operation) out ∧
      (∀ e ∈ out, e.operation = Operation.EQUAL → e.text ≠ []) ∧
      List.Chain' (fun d1 d2 => d1.operation = Operation.DELETE →
        d2.operation = Operation.INSERT →
        diff_commonPrefix d2.text d1.text = 0 ∧ diff_commonSuffix d2.text d1.text = 0) out :=
  c5_theorem (str "xa") (str "ya") (by decide) (by decide)

end CleanupMerge

section PatchText

set_option maxRecDepth 4000

/-- One loop iteration on the stale body-less header re-parses it and
pushes another copy of the patch. -/
theorem pftLoop_bodyless_step (f : Nat) (ps : List Patch) :
    pftLoop (f + 1) (str "@@ -1 +1 @@" ++ [10]) 12 (str "@@ -1 +1 @@") 12 ps =
      pftLoop f (str "@@ -1 +1 @@" ++ [10]) 12 (str "@@ -1 +1 @@") 12
        (ps ++ [⟨[], 0, 0, 1, 1⟩]) := rfl

/-- The patch loop diverges on a serialised patch with no body lines: the
stale header line is re-parsed successfully forever. -/
theorem pftLoop_bodyless : ∀ fuel ps,
    pftLoop fuel (str "@@ -1 +1 @@" ++ [10]) 12 (str "@@ -1 +1 @@") 12 ps = none := by
  intro fuel
  induction fuel with
  | zero => intro ps; rfl
  | succ f ih =>
    intro ps
    rw [pftLoop_bodyless_step]
    exact ih (ps ++ [⟨[], 0, 0, 1, 1⟩])

/-- C3: the round trip `patch_fromText ∘ patch_toText` never succeeds on a
non-empty patch list.  On a patch with body lines the parser reports
failure (`false`) while having reconstructed the patches exactly, because
the `while (true)` loop re-parses the stale final body line as a header;
on a patch without body lines it re-parses the stale header line forever
(`none` at every fuel). -/
theorem c3_theorem :
    (patch_fromText 20 (patch_toText [⟨[⟨Operation.EQUAL, str "a"⟩], 0, 0, 1, 1⟩]) =
      some ([⟨[⟨Operation.EQUAL, str "a"⟩], 0, 0, 1, 1⟩], false)) ∧
    (∀ fuel, patch_fromText fuel (patch_toText [⟨[], 0, 0, 1, 1⟩]) = none) := by
  constructor
  · decide
  · intro fuel
    rw [show patch_toText [(⟨[], 0, 0, 1, 1⟩ : Patch)] = str "@@ -1 +1 @@" ++ [10] from by decide]
    rw [patch_fromText,
      show ((str "@@ -1 +1 @@" ++ [10] : Str)).length = 12 from by decide,
      show nextLine (str "@@ -1 +1 @@" ++ [10]) 12 10 0 = some (str "@@ -1 +1 @@", 12)
        from by decide]
    exact pftLoop_bodyless fuel []

/-- C9: a failed parse is not atomic.  On a two-section input whose second
header is malformed, `patch_fromText` reports failure but leaves the first,
fully parsed patch in the container. -/
theorem c9_theorem :
    patch_fromText 20 (str "@@ -1 +1 @@" ++ [10] ++ str " a" ++ [10] ++ str "@@ bad" ++ [10]) =
      some ([⟨[⟨Operation.EQUAL, str "a"⟩], 0, 0, 1, 1⟩], false) ∧
    ([⟨[⟨Operation.EQUAL, str "a"⟩], 0, 0, 1, 1⟩] : List Patch) ≠ [] := by
  exact ⟨by decide, by decide⟩

end PatchText

section ApplyMake

/-- Each `patch_apply` loop iteration appends exactly one result flag. -/
theorem paLoop_len (fuel : Nat) (o : Nat → Bool) (st : Settings) :
    ∀ (ps : List Patch) (text : Str) (delta : ℤ) (results : List Bool) (k : Nat)
      (r : Str × List Bool × Nat),
      paLoop fuel o st ps text delta results k = some r →
      r.2.1.length = results.length + ps.length := by
  intro ps
  induction ps with
  | nil =>
    intro text delta results k r h
    simp only [paLoop] at h
    cases h
    simp
  | cons aPatch rest ih =>
    intro text delta results k r h
    simp only [paLoop] at h
    cases hl : paLocs fuel st aPatch text (toSizeT (max 0 ((aPatch.start2 : ℤ) + delta))) with
    | none => rw [hl] at h; cases h
    | some se =>
      rw [hl] at h
      obtain ⟨sl, el⟩ := se
      dsimp only at h
      cases ha : paApply1 fuel o st aPatch text sl el
          (toSizeT (max 0 ((aPatch.start2 : ℤ) + delta))) k with
      | none => rw [ha] at h; cases h
      | some tf =>
        rw [ha] at h
        obtain ⟨t', f, dd, k'⟩ := tf
        have h2 := ih _ _ _ _ _ h
        simp at h2
        simp [h2]
        omega

/-- C6: the result-flag vector of `patch_apply` has one flag per patch of
the list obtained after `patch_addPadding` and `patch_splitMax`, not per
patch of the original input list (those counts differ whenever
`patch_splitMax` drops or splits a patch); on an empty input the flag
vector is empty. -/
theorem c6_theorem (fuel : Nat) (o : Nat → Bool) (st : Settings) (patches : List Patch)
    (text : Str) (k : Nat) (res : (Str × List Bool) × Nat)
    (h : patch_apply fuel o st patches text k = some res) :
    (patches = [] ∧ res.1.2 = []) ∨
      ∃ split, patch_splitMax fuel st (patch_addPadding st patches).2 = some split ∧
        res.1.2.length = split.length := by
  unfold patch_apply at h
  by_cases hp : patches.length = 0
  · left
    rw [if_pos hp] at h
    cases h
    exact ⟨List.length_eq_zero.mp hp, rfl⟩
  · right
    rw [if_neg hp] at h
    rcases hpp : patch_addPadding st patches with ⟨np, ps1⟩
    rw [hpp] at h
    simp only [] at h
    cases hsm : patch_splitMax fuel st ps1 with
    | none => rw [hsm] at h; cases h
    | some split =>
      rw [hsm] at h
      dsimp only at h
      cases hpl : paLoop fuel o st split (np ++ text ++ np) 0 [] k with
      | none => rw [hpl] at h; cases h
      | some tr =>
        rw [hpl] at h
        obtain ⟨textF, results, k'⟩ := tr
        cases h
        refine ⟨split, by rfl, ?_⟩
        have := paLoop_len fuel o st split (np ++ text ++ np) 0 [] k _ hpl
        simpa using this

/-- C6 counterexample: a single patch whose diffs are one 33-character
equality (`length1 = 33 > Match_MaxBits = 32`) is removed by
`patch_splitMax` and never re-added (the `empty` flag is only cleared by a
non-EQUAL diff), so `patch_apply` returns an empty flag vector for a
one-patch input. -/
theorem c6_counterexample :
    patch_apply 50 (fun _ => false) defaultSettings
        [⟨[⟨Operation.EQUAL, str "abcdefghijklmnopqrstuvwxyzABCDEFG"⟩], 0, 0, 33, 33⟩]
        (str "abcdefghijklmnopqrstuvwxyzABCDEFG") 0 =
      some ((str "abcdefghijklmnopqrstuvwxyzABCDEFG", []), 0) ∧
    ¬(([] : List Bool).length =
      ([⟨[⟨Operation.EQUAL, str "abcdefghijklmnopqrstuvwxyzABCDEFG"⟩], 0, 0, 33, 33⟩] :
        List Patch).length) := by
  constructor
  · decide
  · decide

/-- Witness for `c6_theorem` at a concrete input: one empty patch applied
to the empty text; after padding and splitting one patch remains and one
flag is returned. -/
theorem c6_witness :
    (patch_apply 20 (fun _ => false) defaultSettings [⟨[], 0, 0, 0, 0⟩] [] 0 =
      some ((([] : Str), [true]), 0)) ∧
    ((([⟨[], 0, 0, 0, 0⟩] : List Patch) = [] ∧ ([true] : List Bool) = []) ∨
      ∃ split, patch_splitMax 20 defaultSettings
          (patch_addPadding defaultSettings [⟨[], 0, 0, 0, 0⟩]).2 = some split ∧
        ([true] : List Bool).length = split.length) :=
  ⟨by decide, c6_theorem 20 (fun _ => false) defaultSettings [⟨[], 0, 0, 0, 0⟩] [] 0
    ((([] : Str), [true]), 0) (by decide)⟩

/-- `cm1` on `[DELETE "xyz"]` plus the dummy equality: one delete step,
one (no-op) equality step, exit. -/
theorem cm1_delxyz (n : Nat) :
    cm1 (n + 3) [⟨Operation.DELETE, str "xyz"⟩, ⟨Operation.EQUAL, []⟩] 0 0 0 [] [] =
      some [⟨Operation.DELETE, str "xyz"⟩, ⟨Operation.EQUAL, []⟩] := by
  rw [cm1_step_del2 [⟨Operation.DELETE, str "xyz"⟩, ⟨Operation.EQUAL, []⟩] 0
      ⟨Operation.DELETE, str "xyz"⟩ (by norm_num) rfl rfl]
  rw [cm1_step_eq2 [⟨Operation.DELETE, str "xyz"⟩, ⟨Operation.EQUAL, []⟩] 1
      (by norm_num) (by rfl)]
  rw [show (cm1EqStep [⟨Operation.DELETE, str "xyz"⟩, ⟨Operation.EQUAL, []⟩] 1 (0 + 1) 0
      ([] ++ str "xyz") []) = ([⟨Operation.DELETE, str "xyz"⟩, ⟨Operation.EQUAL, []⟩], 2)
      from rfl]
  exact cm1_exit' (by norm_num)

/-- `diff_cleanupMerge` leaves `[DELETE "xyz"]` unchanged (for any fuel
that does not run out). -/
theorem cleanupMerge_delxyz (fuel : Nat) :
    diff_cleanupMerge fuel [⟨Operation.DELETE, str "xyz"⟩] = none ∨
    diff_cleanupMerge fuel [⟨Operation.DELETE, str "xyz"⟩] =
      some [⟨Operation.DELETE, str "xyz"⟩] := by
  match fuel with
  | 0 => exact Or.inl rfl
  | 1 => exact Or.inl rfl
  | 2 => exact Or.inl rfl
  | (n + 3) =>
    right
    rw [diff_cleanupMerge]
    rw [if_neg (by simp)]
    simp only [List.cons_append, List.nil_append]
    rw [cm1_delxyz]
    norm_num [List.getD]
    rw [cm2_exit' (by norm_num)]
    simp

/-- `diff_main("xyz", "")` yields the single diff `[DELETE "xyz"]`
whenever the fuel suffices (the empty-`text2` speedup of
`diff_compute`). -/
theorem diff_mainR_xyz (fuel : Nat) (o : Nat → Bool) (k : Nat) :
    diff_mainR fuel o defaultSettings (str "xyz") [] true k = none ∨
    diff_mainR fuel o defaultSettings (str "xyz") [] true k =
      some ([⟨Operation.DELETE, str "xyz"⟩], k) := by
  match fuel with
  | 0 => exact Or.inl rfl
  | (f + 1) =>
    have e : diff_mainR (f + 1) o defaultSettings (str "xyz") [] true k =
        (match diff_cleanupMerge f [⟨Operation.DELETE, str "xyz"⟩] with
         | none => none
         | some out => some (out, k)) := rfl
    rw [e]
    rcases cleanupMerge_delxyz f with h | h <;> rw [h]
    · exact Or.inl rfl
    · exact Or.inr rfl

/-- One outer `patch_make` iteration on the diverging state: the projected
length is `3 - min 3 3 = 0`, the inner loop never runs, and the state is
reproduced unchanged. -/
theorem pmOuter_xyz_step (fuel : Nat) :
    pmOuter (fuel + 1) defaultSettings [⟨Operation.DELETE, str "xyz"⟩] 1 0 dPatch 0 0
      (str "xyz") [] =
    pmOuter fuel defaultSettings [⟨Operation.DELETE, str "xyz"⟩] 1 0 dPatch 0 0
      (str "xyz") [] := rfl

/-- The outer `patch_make` loop on `[DELETE "xyz"]` never terminates:
every fuel is exhausted. -/
theorem pmOuter_xyz (fuel : Nat) :
    pmOuter fuel defaultSettings [⟨Operation.DELETE, str "xyz"⟩] 1 0 dPatch 0 0
      (str "xyz") [] = none := by
  induction fuel with
  | zero => rfl
  | succ f ih => rw [pmOuter_xyz_step]; exact ih

/-- C1: `patch_make("xyz", "")` never returns, for any fuel, any deadline
oracle and any clock state: `diff_main` yields `[DELETE "xyz"]`, the
projected postpatch length is 0, so the inner application loop (guarded by
`len > 0`) never advances `index` and the outer `while (index < n)` loop
spins forever.  The claimed round trip
`patch_apply(patch_make(a, b), a) = b` therefore fails at `a = "xyz"`,
`b = ""`. -/
theorem c1_theorem (fuel : Nat) (o : Nat → Bool) (k : Nat) :
    patch_make fuel o defaultSettings (str "xyz") (str "") k = none := by
  unfold patch_make diff_main
  rw [if_neg (by decide : ¬defaultSettings.Diff_Timeout ≤ 0)]
  rcases diff_mainR_xyz fuel o k with h | h <;> rw [show str "" = ([] : Str) from rfl, h]
  show (match patch_make4 fuel defaultSettings (str "xyz")
      [⟨Operation.DELETE, str "xyz"⟩] with
    | none => none
    | some patches => some (patches, k)) = none
  unfold patch_make4
  rw [if_neg (by norm_num)]
  rw [show ([⟨Operation.DELETE, str "xyz"⟩] : List Diff).length = 1 from rfl]
  rw [pmOuter_xyz]

end ApplyMake

end DMP
